import Mathlib

/-!
A verification development for the agent-cassette record/replay engine
(`src/cassette.ts`).  The JSON-representable value universe, the canonical
serializer (`sortKeysRecursively` composed with `JSON.stringify`), the
redactor, the JSONL entry store and the call wrapper are embedded as
executable Lean definitions, and the behavioural claims about them are
proved below.

Modelling conventions:
* JavaScript strings and file contents are `String` and `List Char`.
* The cassette file is represented by its contents; `Option` encodes
  whether the file exists.  `appendFileSync` appends to the contents.
* Asynchronous calls are modelled by their resolved outcome: an
  `Except JSError (Option JVal)` where `Option` distinguishes a value
  from `undefined` and `JSError` is a thrown JavaScript value.
* I/O failures of `appendFileSync` and `mkdirSync` are modelled by
  prophecy parameters (`Option JSError`) consumed by each append attempt.
* Numeric amounts carried by JSON (token counts) are modelled as `Int`.
-/

namespace Cassette

/-- JSON-representable values.  Objects are modelled as ordered field lists
(JavaScript objects enumerate string keys in insertion order).  A real
JavaScript object can never hold two fields with the same key; that is
captured by the well-formedness predicate `wfB` below where it matters. -/
inductive JVal where
  | null : JVal
  | bool (b : Bool) : JVal
  | num (n : Int) : JVal
  | str (s : String) : JVal
  | arr (elems : List JVal) : JVal
  | obj (fields : List (String × JVal)) : JVal
deriving Inhabited

mutual

/-- Boolean structural equality on `JVal` (automatic deriving is not
available for this nested inductive). -/
def beqV : JVal → JVal → Bool
  | .null, .null => true
  | .bool a, .bool b => a == b
  | .num a, .num b => a == b
  | .str a, .str b => a == b
  | .arr xs, .arr ys => beqL xs ys
  | .obj fs, .obj gs => beqF fs gs
  | _, _ => false

def beqL : List JVal → List JVal → Bool
  | [], [] => true
  | x :: xs, y :: ys => beqV x y && beqL xs ys
  | _, _ => false

def beqF : List (String × JVal) → List (String × JVal) → Bool
  | [], [] => true
  | p :: ps, q :: qs => p.1 == q.1 && beqV p.2 q.2 && beqF ps qs
  | _, _ => false

end

/-- Lexicographic comparison of character lists by code point, the order
used by the default JavaScript `Array.prototype.sort` comparator on
strings.  (Implemented on `Nat` codes so that it evaluates inside the
kernel.) -/
def ltCharsB : List Char → List Char → Bool
  | [], [] => false
  | [], _ :: _ => true
  | _ :: _, [] => false
  | c :: cs, d :: ds =>
    if c.toNat < d.toNat then true
    else if d.toNat < c.toNat then false
    else ltCharsB cs ds

/-- String order used when sorting object keys. -/
def strLeB (s t : String) : Bool := !(ltCharsB t.data s.data)

/-- Sorting an object's fields by key.  The source sorts
`Object.keys(recordValue)` with the default comparator and then rebuilds
the record in that key order, which for a JavaScript object (whose keys
are pairwise distinct) is exactly a stable sort of its (key, value)
fields by key. -/
def sortFields (fs : List (String × JVal)) : List (String × JVal) :=
  List.insertionSort (fun p q => strLeB p.1 q.1 = true) fs

mutual

/-- `sortKeysRecursively` from the source: arrays are mapped elementwise,
objects get their keys sorted lexicographically at every nesting depth,
primitives are returned as-is.  (The source sorts the keys of an object
and then recurses into each value; since the comparator only inspects
keys, sorting commutes with the recursion into values, and the recursion
is performed first here so that the definition is structural.  The
equation `sortKeysRecursively_obj` below recovers the source's order of
operations.) -/
def sortKeysRecursively : JVal → JVal
  | .null => .null
  | .bool b => .bool b
  | .num n => .num n
  | .str s => .str s
  | .arr xs => .arr (sortKeysList xs)
  | .obj fs => .obj (sortFields (sortKeysFields fs))

def sortKeysList : List JVal → List JVal
  | [] => []
  | x :: xs => sortKeysRecursively x :: sortKeysList xs

def sortKeysFields : List (String × JVal) → List (String × JVal)
  | [] => []
  | p :: ps => (p.1, sortKeysRecursively p.2) :: sortKeysFields ps

end

/-- Decimal digits of a natural number, most significant first
(fuel-based so that it evaluates inside the kernel; the fuel `n + 1`
always suffices). -/
def natCharsGo : Nat → Nat → List Char → List Char
  | 0, _, acc => acc
  | f + 1, n, acc =>
    if n < 10 then Nat.digitChar n :: acc
    else natCharsGo f (n / 10) (Nat.digitChar (n % 10) :: acc)

/-- Decimal representation of a natural number. -/
def natChars (n : Nat) : List Char := natCharsGo (n + 1) n []

/-- Decimal representation of an integer, as printed by
`JSON.stringify` for (safe) integral JavaScript numbers. -/
def intChars (n : Int) : List Char :=
  if n < 0 then '-' :: natChars n.natAbs else natChars n.toNat

/-- Lower-case hexadecimal digit. -/
def hexDigit (n : Nat) : Char := ("0123456789abcdef".data).getD n '0'

/-- Value of a hexadecimal digit character. -/
def hexVal (c : Char) : Nat :=
  if '0' ≤ c ∧ c ≤ '9' then c.toNat - 48
  else if 'a' ≤ c ∧ c ≤ 'f' then c.toNat - 87
  else if 'A' ≤ c ∧ c ≤ 'F' then c.toNat - 55
  else 0

/-- Hexadecimal digit recognizer. -/
def isHexCh (c : Char) : Bool :=
  (('0' ≤ c && c ≤ '9') || ('a' ≤ c && c ≤ 'f') || ('A' ≤ c && c ≤ 'F'))

/-- How `JSON.stringify` escapes a single character inside a string
literal: the two JSON metacharacters and the named control characters get
two-character escapes, the remaining control characters get a `\u00xx`
escape, everything else is emitted literally. -/
def escChar (c : Char) : List Char :=
  if c = '"' then ['\\', '"']
  else if c = '\\' then ['\\', '\\']
  else if c = '\x08' then ['\\', 'b']
  else if c = '\x0c' then ['\\', 'f']
  else if c = '\n' then ['\\', 'n']
  else if c = '\r' then ['\\', 'r']
  else if c = '\t' then ['\\', 't']
  else if c.toNat < 32 then
    ['\\', 'u', '0', '0', hexDigit (c.toNat / 16), hexDigit (c.toNat % 16)]
  else [c]

/-- Escape every character of a string body. -/
def escList : List Char → List Char
  | [] => []
  | c :: cs => escChar c ++ escList cs

/-- A JSON string literal: quote, escaped body, quote. -/
def strLit (s : String) : List Char := '"' :: (escList s.data ++ ['"'])

mutual

/-- Compact `JSON.stringify` output of a value, as a character list. -/
def serV : JVal → List Char
  | .num n => intChars n
  | .str s => strLit s
  | .null => ['n', 'u', 'l', 'l']
  | .bool false => ['f', 'a', 'l', 's', 'e']
  | .bool true => ['t', 'r', 'u', 'e']
  | .arr [] => ['[', ']']
  | .arr (x :: xs) => '[' :: (serV x ++ serTail xs ++ [']'])
  | .obj [] => ['\x7b', '\x7d']
  | .obj (p :: ps) => '\x7b' :: (serField p ++ serFTail ps ++ ['\x7d'])

def serField : String × JVal → List Char
  | p => strLit p.1 ++ ':' :: serV p.2

def serTail : List JVal → List Char
  | [] => []
  | x :: xs => ',' :: (serV x ++ serTail xs)

def serFTail : List (String × JVal) → List Char
  | [] => []
  | p :: ps => ',' :: (serField p ++ serFTail ps)

end

/-- `JSON.stringify` as a string-valued function. -/
def jsonStringify (v : JVal) : String := String.mk (serV v)

/-- Modelled from the spec: `sha256Hex` in the source delegates to the
SHA-256 implementation of the platform crypto library, which is not part
of this repository.  Spec section 4.2 requires a collision-resistant
content hash whose digests double as the durable matching key, i.e.
distinct canonical serializations are assumed to produce distinct
digests; the model therefore uses an injective encoding of the input
string. -/
def sha256Hex (value : String) : String := value

/-- `stableSerialize` from the source:
`JSON.stringify(sortKeysRecursively(value))`. -/
def stableSerialize (value : JVal) : String :=
  jsonStringify (sortKeysRecursively value)

/-- The character class of the regular-expression atom `\s`. -/
def isJsWs (c : Char) : Bool :=
  c = ' ' || c = '\t' || c = '\n' || c = '\r' || c = '\x0b' || c = '\x0c' || c = '\u00a0'

/-- The character class `[A-Za-z0-9_.-]` of the bearer-token pattern. -/
def isBearerTokCh (c : Char) : Bool :=
  (('A' ≤ c && c ≤ 'Z') || ('a' ≤ c && c ≤ 'z') || ('0' ≤ c && c ≤ '9')
    || c = '_' || c = '.' || c = '-')

/-- The character class `[A-Za-z0-9_-]` of the API-key pattern. -/
def isSkTokCh (c : Char) : Bool :=
  (('A' ≤ c && c ≤ 'Z') || ('a' ≤ c && c ≤ 'z') || ('0' ≤ c && c ≤ '9')
    || c = '_' || c = '-')

/-- Greedy match of `Bearer\s+[A-Za-z0-9_.-]+` at the head of the input;
returns the suffix after the match.  (The two character classes are
disjoint from `\s`, so greedy matching needs no backtracking.) -/
def matchBearer : List Char → Option (List Char)
  | 'B' :: 'e' :: 'a' :: 'r' :: 'e' :: 'r' :: rest =>
    let ws := rest.takeWhile isJsWs
    let rest1 := rest.dropWhile isJsWs
    if ws.isEmpty then none
    else
      let tok := rest1.takeWhile isBearerTokCh
      if tok.isEmpty then none else some (rest1.dropWhile isBearerTokCh)
  | _ => none

/-- Greedy match of `sk-[A-Za-z0-9_-]+` at the head of the input. -/
def matchSk : List Char → Option (List Char)
  | 's' :: 'k' :: '-' :: rest =>
    let tok := rest.takeWhile isSkTokCh
    if tok.isEmpty then none else some (rest.dropWhile isSkTokCh)
  | _ => none

/-- `String.prototype.replace` with a global regular expression: scan left
to right, replace each non-overlapping leftmost match, never rescan the
replacement text.  Fuel-based; fuel `length + 1` always suffices since
every step consumes at least one character. -/
def goReplace (tryMatch : List Char → Option (List Char)) (repl : List Char) :
    Nat → List Char → List Char
  | 0, cs => cs
  | _ + 1, [] => []
  | f + 1, c :: cs =>
    match tryMatch (c :: cs) with
    | some rest => repl ++ goReplace tryMatch repl f rest
    | none => c :: goReplace tryMatch repl f cs

/-- The two replacements performed on every string by the default
redactor: bearer-token-shaped substrings, then API-key-shaped
substrings. -/
def redactString (s : String) : String :=
  let cs1 := goReplace matchBearer ("Bearer [REDACTED]".data) (s.data.length + 1) s.data
  String.mk (goReplace matchSk ("sk-[REDACTED]".data) (cs1.length + 1) cs1)

mutual

/-- `defaultRedactValue` from the source: strings are passed through the
two regular-expression replacements, arrays and objects are mapped
recursively, all other values are returned unchanged. -/
def defaultRedactValue : JVal → JVal
  | .str s => .str (redactString s)
  | .arr xs => .arr (redactLs xs)
  | .obj fs => .obj (redactFs fs)
  | v => v

def redactLs : List JVal → List JVal
  | [] => []
  | x :: xs => defaultRedactValue x :: redactLs xs

def redactFs : List (String × JVal) → List (String × JVal)
  | [] => []
  | p :: ps => (p.1, defaultRedactValue p.2) :: redactFs ps

end

mutual

/-- All string leaves of a value, in traversal order. -/
def stringLeaves : JVal → List String
  | .str s => [s]
  | .arr xs => stringLeavesL xs
  | .obj fs => stringLeavesF fs
  | _ => []

def stringLeavesL : List JVal → List String
  | [] => []
  | x :: xs => stringLeaves x ++ stringLeavesL xs

def stringLeavesF : List (String × JVal) → List String
  | [] => []
  | p :: ps => stringLeaves p.2 ++ stringLeavesF ps

end

mutual

/-- JavaScript `String(value)` conversion for JSON-representable values:
primitives print themselves, arrays join their elements with commas
(`null` elements print as the empty string), plain objects print as
the fixed object tag. -/
def jsToString : JVal → String
  | .null => "null"
  | .bool true => "true"
  | .bool false => "false"
  | .num n => String.mk (intChars n)
  | .str s => s
  | .arr xs => String.intercalate "," (jsToStringElems xs)
  | .obj _ => "[object Object]"

def jsToStringElems : List JVal → List String
  | [] => []
  | .null :: xs => "" :: jsToStringElems xs
  | x :: xs => jsToString x :: jsToStringElems xs

end


mutual

/-- Body of a JSON string literal after the opening quote: consume
characters and escape sequences up to the closing quote, returning the
decoded characters and the suffix after the closing quote. -/
def parseStrBody : List Char → Option (List Char × List Char)
  | [] => none
  | c :: rest =>
    if c = '"' then some ([], rest)
    else if c = '\\' then parseEscape rest
    else (parseStrBody rest).map (fun pr => (c :: pr.1, pr.2))

/-- The tail of an escape sequence, after the backslash. -/
def parseEscape : List Char → Option (List Char × List Char)
  | [] => none
  | e :: rest =>
    if e = '"' then (parseStrBody rest).map (fun pr => ('"' :: pr.1, pr.2))
    else if e = '\\' then (parseStrBody rest).map (fun pr => ('\\' :: pr.1, pr.2))
    else if e = '/' then (parseStrBody rest).map (fun pr => ('/' :: pr.1, pr.2))
    else if e = 'b' then (parseStrBody rest).map (fun pr => ('\x08' :: pr.1, pr.2))
    else if e = 'f' then (parseStrBody rest).map (fun pr => ('\x0c' :: pr.1, pr.2))
    else if e = 'n' then (parseStrBody rest).map (fun pr => ('\n' :: pr.1, pr.2))
    else if e = 'r' then (parseStrBody rest).map (fun pr => ('\r' :: pr.1, pr.2))
    else if e = 't' then (parseStrBody rest).map (fun pr => ('\t' :: pr.1, pr.2))
    else if e = 'u' then parseUEscape rest
    else none

/-- A four-hex-digit unicode escape, after the `u`. -/
def parseUEscape : List Char → Option (List Char × List Char)
  | h1 :: h2 :: h3 :: h4 :: rest =>
    if isHexCh h1 && isHexCh h2 && isHexCh h3 && isHexCh h4 then
      (parseStrBody rest).map (fun pr =>
        (Char.ofNat (hexVal h1 * 4096 + hexVal h2 * 256 +
           hexVal h3 * 16 + hexVal h4) :: pr.1, pr.2))
    else none
  | _ => none

end

/-- Accumulating decimal-digit scanner. -/
def digsGo : Nat → List Char → Nat × List Char
  | acc, [] => (acc, [])
  | acc, c :: cs =>
    if c.isDigit then digsGo (acc * 10 + (c.toNat - 48)) cs else (acc, c :: cs)

/-- Parses a non-empty run of decimal digits at the head of the input. -/
def parseDigs : List Char → Option (Nat × List Char)
  | [] => none
  | c :: cs => if c.isDigit then some (digsGo 0 (c :: cs)) else none

/-- Consume an expected literal tail and return the given value. -/
def expectLit : List Char → JVal → List Char → Option (JVal × List Char)
  | [], v, rest => some (v, rest)
  | l :: ls, v, c :: rest => if c = l then expectLit ls v rest else none
  | _ :: _, _, [] => none

mutual

/-- Recursive-descent parser for the compact JSON emitted by `serV`
(lenient about numbers, as only round-tripping the serializer's own
output matters).  The fuel argument only bounds the nesting depth of
recursive calls; `2 * length + 2` always suffices. -/
def parseVal : Nat → List Char → Option (JVal × List Char)
  | 0, _ => none
  | _ + 1, [] => none
  | f + 1, c :: rest =>
    if c = 'n' then expectLit ['u', 'l', 'l'] .null rest
    else if c = 't' then expectLit ['r', 'u', 'e'] (.bool true) rest
    else if c = 'f' then expectLit ['a', 'l', 's', 'e'] (.bool false) rest
    else if c = '"' then
      (parseStrBody rest).map (fun pr => (.str (String.mk pr.1), pr.2))
    else if c = '-' then
      match parseDigs rest with
      | some (n, rest1) => some (.num (-(n : Int)), rest1)
      | none => none
    else if c = '[' then parseArrStart f rest
    else if c = '\x7b' then parseObjStart f rest
    else if c.isDigit then
      match parseDigs (c :: rest) with
      | some (n, rest1) => some (.num (n : Int), rest1)
      | none => none
    else none

/-- The inside of an array literal, after the opening bracket. -/
def parseArrStart : Nat → List Char → Option (JVal × List Char)
  | _, [] => none
  | f, d :: rest =>
    if d = ']' then some (.arr [], rest)
    else
      match parseVal f (d :: rest) with
      | some (v, rest1) =>
        match parseArrTail f rest1 with
        | some (vs, rest2) => some (.arr (v :: vs), rest2)
        | none => none
      | none => none

/-- The inside of an object literal, after the opening brace. -/
def parseObjStart : Nat → List Char → Option (JVal × List Char)
  | _, [] => none
  | f, d :: rest =>
    if d = '\x7d' then some (.obj [], rest)
    else
      match parseFieldAnd f (d :: rest) with
      | some (p, rest1) =>
        match parseObjTail f rest1 with
        | some (ps, rest2) => some (.obj (p :: ps), rest2)
        | none => none
      | none => none

/-- One `"key":value` field of an object literal. -/
def parseFieldAnd : Nat → List Char → Option ((String × JVal) × List Char)
  | 0, _ => none
  | _ + 1, [] => none
  | f + 1, c :: rest =>
    if c = '"' then
      match parseStrBody rest with
      | some (cs, rest1) =>
        match rest1 with
        | [] => none
        | d :: rest2 =>
          if d = ':' then
            match parseVal f rest2 with
            | some (v, rest3) => some ((String.mk cs, v), rest3)
            | none => none
          else none
      | none => none
    else none

/-- The remainder of an array literal after its first element. -/
def parseArrTail : Nat → List Char → Option (List JVal × List Char)
  | 0, _ => none
  | _ + 1, [] => none
  | f + 1, c :: rest =>
    if c = ']' then some ([], rest)
    else if c = ',' then
      match parseVal f rest with
      | some (v, rest1) =>
        match parseArrTail f rest1 with
        | some (vs, rest2) => some (v :: vs, rest2)
        | none => none
      | none => none
    else none

/-- The remainder of an object literal after its first field. -/
def parseObjTail : Nat → List Char → Option (List (String × JVal) × List Char)
  | 0, _ => none
  | _ + 1, [] => none
  | f + 1, c :: rest =>
    if c = '\x7d' then some ([], rest)
    else if c = ',' then
      match parseFieldAnd f rest with
      | some (p, rest1) =>
        match parseObjTail f rest1 with
        | some (ps, rest2) => some (p :: ps, rest2)
        | none => none
      | none => none
    else none

end

/-- `JSON.parse` of one line: the whole line must be consumed, otherwise
the parse throws a `SyntaxError`. -/
def parseJsonLine (cs : List Char) : Except String JVal :=
  match parseVal (2 * cs.length + 2) cs with
  | some (v, []) => .ok v
  | _ => .error "SyntaxError: unexpected token in JSON"

/-- JavaScript `contents.split("\n")`. -/
def splitOnNl : List Char → List (List Char)
  | [] => [[]]
  | c :: rest =>
    if c = '\n' then [] :: splitOnNl rest
    else
      match splitOnNl rest with
      | [] => [[c]]
      | l :: ls => (c :: l) :: ls

/-- JavaScript `String.prototype.trim` on a character list. -/
def trimChars (cs : List Char) : List Char :=
  ((cs.dropWhile isJsWs).reverse.dropWhile isJsWs).reverse

/-- `readJsonlEntries` from the source: if the file does not exist return
no entries, otherwise split its contents on newlines, trim each line, drop
empty lines, and `JSON.parse` each remaining line (the first parse failure
propagates as the thrown `SyntaxError`). -/
def readJsonlEntries (file : Option (List Char)) : Except String (List JVal) :=
  match file with
  | none => .ok []
  | some contents =>
    (((splitOnNl contents).map trimChars).filter (fun l => l.length > 0)).foldr
      (fun l acc =>
        match parseJsonLine l, acc with
        | .ok v, .ok vs => .ok (v :: vs)
        | .error e, _ => .error e
        | _, .error e => .error e)
      (.ok [])

/-- JavaScript property access `value[key]` for JSON-parsed data: only
objects have string-keyed properties, and when a JSON text contains the
same key twice the later occurrence wins.  Non-`null` primitives box and
yield `undefined`; access on `null` itself throws in JavaScript, and the
model raises that `TypeError` at the one place the program performs such
an access on a loaded record, the key computation of the loading loop
(`buildQueuesGo`) — `getField` itself is only ever applied to values the
program has already accessed successfully. -/
def getField : JVal → String → Option JVal
  | .obj fs, k => fs.foldl (fun acc p => if p.1 == k then some p.2 else acc) none
  | _, _ => none

/-- JavaScript truthiness of a JSON value. -/
def jsTruthy : JVal → Bool
  | .null => false
  | .bool b => b
  | .num n => n != 0
  | .str s => s != ""
  | .arr _ => true
  | .obj _ => true

/-- `getTotalTokensFromMeta` from the source: `0` when the meta value is
absent or falsy, otherwise its `total_tokens` property when that is a
number, else `0`. -/
def getTotalTokensFromMeta (meta : Option JVal) : Int :=
  match meta with
  | none => 0
  | some m =>
    if jsTruthy m then
      match getField m "total_tokens" with
      | some (.num n) => n
      | _ => 0
    else 0


/-- The four cassette modes. -/
inductive CassetteMode where
  | record
  | replay
  | passthrough
  | auto
deriving DecidableEq, Inhabited

/-- A persisted failure: name, message and optional stack text. -/
structure CassetteRecordedError where
  name : String
  message : String
  stack : Option String
deriving DecidableEq, Inhabited

/-- One recorded outcome, as built by the wrapper before persistence.
`cassette_version` is the literal `1` and is supplied by `entryToJVal`.
Fields whose value can be `undefined` (and which `JSON.stringify` then
omits) are `Option`s. -/
structure CassetteEntry where
  call_name : String
  request_hash : String
  recorded_at_ms : Nat
  latency_ms : Nat
  args_preview : Option JVal
  result : Option JVal
  error : Option CassetteRecordedError
  meta : Option JVal
deriving Inhabited

/-- The recorded-error object literal: `stack` is omitted when absent
(the non-`Error` branch of the source builds the object without it). -/
def errToJVal (e : CassetteRecordedError) : JVal :=
  .obj ([("name", .str e.name), ("message", .str e.message)] ++
    (match e.stack with
     | some st => [("stack", .str st)]
     | none => []))

/-- The entry object in the key order of the source's object literals
(`JSON.stringify` omits properties whose value is `undefined`). -/
def entryToJVal (e : CassetteEntry) : JVal :=
  .obj ([("cassette_version", .num 1),
         ("call_name", .str e.call_name),
         ("request_hash", .str e.request_hash),
         ("recorded_at_ms", .num e.recorded_at_ms),
         ("latency_ms", .num e.latency_ms)] ++
    (match e.args_preview with
     | some p => [("args_preview", p)]
     | none => []) ++
    (match e.result with
     | some r => [("result", r)]
     | none => []) ++
    (match e.error with
     | some err => [("error", errToJVal err)]
     | none => []) ++
    (match e.meta with
     | some m => [("meta", m)]
     | none => []))

/-- The action of the default redactor on an entry object, described at
the level of entry records: every string leaf (including the call name,
the hash text, the error fields and all strings inside preview, result
and meta) goes through `redactString`. -/
def redactEntry (e : CassetteEntry) : CassetteEntry :=
  { call_name := redactString e.call_name
    request_hash := redactString e.request_hash
    recorded_at_ms := e.recorded_at_ms
    latency_ms := e.latency_ms
    args_preview := e.args_preview.map defaultRedactValue
    result := e.result.map defaultRedactValue
    error := e.error.map (fun er =>
      { name := redactString er.name
        message := redactString er.message
        stack := er.stack.map redactString })
    meta := e.meta.map defaultRedactValue }

/-- The session statistics counters. -/
structure CassetteSessionStats where
  mode : CassetteMode
  calls_recorded : Nat
  calls_replayed : Nat
  replay_hits : Nat
  replay_misses : Nat
  total_tokens_recorded : Int
  total_tokens_saved_estimate : Int
deriving DecidableEq, Inhabited

/-- A thrown JavaScript value: either an `Error` instance (name, message,
optional stack) or any other value. -/
inductive JSError where
  | errorObj (name message : String) (stack : Option String)
  | nonError (value : JVal)
deriving Inhabited

/-- The mutable state captured by the `createCassette` closure: the
resolved mode, the redactor, the per-key queues, the statistics, and the
current contents of the cassette file. -/
structure Session where
  mode : CassetteMode
  redactValue : JVal → JVal
  entriesByLookupKeyQueue : List (String × List JVal)
  sessionStats : CassetteSessionStats
  file : List Char

/-- `Map.prototype.get`. -/
def mapGet (m : List (String × α)) (k : String) : Option α :=
  (m.find? (fun p => p.1 == k)).map (fun p => p.2)

/-- `Map.prototype.set`: replace the value at an existing key in place,
otherwise append a new binding. -/
def mapSet (m : List (String × α)) (k : String) (v : α) : List (String × α) :=
  if m.any (fun p => p.1 == k) then
    m.map (fun p => if p.1 == k then (k, v) else p)
  else m ++ [(k, v)]

/-- The lookup key computed for a loaded non-`null` entry by the
template literal in `createCassette` (property access on a parsed JSON
value; a missing property interpolates as the text of `undefined`).  The
`null` case never reaches this function: `buildQueuesGo` raises the
`TypeError` of `null.call_name` first. -/
def loadKeyOf (e : JVal) : String :=
  (match getField e "call_name" with
   | some v => jsToString v
   | none => "undefined") ++ "::" ++
  (match getField e "request_hash" with
   | some v => jsToString v
   | none => "undefined")

/-- The per-key queues that the loading loop produces when it completes:
each loaded entry appended, in file order, to the queue at its lookup
key. -/
def buildQueues (entries : List JVal) : List (String × List JVal) :=
  entries.foldl
    (fun m e => mapSet m (loadKeyOf e) ((mapGet m (loadKeyOf e)).getD [] ++ [e]))
    []

/-- The loading loop of `createCassette`, entry by entry in file order.
Computing the lookup key performs the property accesses
`entry.call_name` and `entry.request_hash`: on a record that parsed to
the bare JSON `null` the first access throws a `TypeError` (property
access on `null` is an error in JavaScript, not `undefined`), aborting
session creation; every other value boxes, yields `undefined` for a
missing property, and the loop queues the entry under its key. -/
def buildQueuesGo (m : List (String × List JVal)) :
    List JVal → Except String (List (String × List JVal))
  | [] => .ok m
  | .null :: _ =>
    .error "TypeError: Cannot read properties of null (reading 'call_name')"
  | e :: rest =>
    buildQueuesGo (mapSet m (loadKeyOf e) ((mapGet m (loadKeyOf e)).getD [] ++ [e])) rest

/-- `createCassette` options: the contents of the file at
`cassetteFilePath` (`none` when the file does not exist), the requested
mode, and an optional custom redactor. -/
structure CreateCassetteOptions where
  cassetteFile : Option (List Char)
  mode : Option CassetteMode
  redactValue : Option (JVal → JVal)

/-- `createCassette` from the source: default the mode to `record`,
resolve `auto` once against the existence of the file, load the existing
entries (a parse failure propagates, and so does the `TypeError` thrown
by the key computation on a `null` record), build the queues, and zero
the statistics. -/
def createCassette (o : CreateCassetteOptions) : Except String Session :=
  let resolvedMode := o.mode.getD .record
  let redactValue := o.redactValue.getD defaultRedactValue
  let mode : CassetteMode :=
    if resolvedMode = .auto then
      if o.cassetteFile.isSome then .replay else .record
    else resolvedMode
  match readJsonlEntries o.cassetteFile with
  | .error e => .error e
  | .ok existingEntries =>
    match buildQueuesGo [] existingEntries with
    | .error e => .error e
    | .ok queues =>
      .ok { mode := mode
            redactValue := redactValue
            entriesByLookupKeyQueue := queues
            sessionStats :=
              { mode := mode
                calls_recorded := 0
                calls_replayed := 0
                replay_hits := 0
                replay_misses := 0
                total_tokens_recorded := 0
                total_tokens_saved_estimate := 0 }
            file := o.cassetteFile.getD [] }

/-- `appendEntry` from the source: redact the whole entry object, then
append its JSON text plus a newline to the file. -/
def appendEntryLine (sess : Session) (entry : CassetteEntry) : List Char :=
  serV (sess.redactValue (entryToJVal entry)) ++ ['\n']

/-- The error object persisted by the catch block of the record path. -/
def buildErrorObject : JSError → CassetteRecordedError
  | .errorObj n m s => { name := n, message := m, stack := s }
  | .nonError v => { name := "UnknownError", message := jsToString v, stack := none }

/-- The catch block of the record path: build the error entry, attempt to
append it (a second I/O failure propagates instead, leaving the counter
untouched), then re-raise the original thrown value unchanged. -/
def recordCatch (sess : Session) (callName requestHash : String)
    (argsPreview : Option JVal) (tStart tEnd : Nat)
    (unknownError : JSError) (fsFail : Option JSError) :
    Except JSError (Option JVal) × Session :=
  let entry : CassetteEntry :=
    { call_name := callName
      request_hash := requestHash
      recorded_at_ms := tEnd
      latency_ms := tEnd - tStart
      args_preview := argsPreview
      result := none
      error := some (buildErrorObject unknownError)
      meta := none }
  match fsFail with
  | some fsError2 => (.error fsError2, sess)
  | none =>
    (.error unknownError,
     { sess with
        file := sess.file ++ appendEntryLine sess entry
        sessionStats :=
          { sess.sessionStats with
             calls_recorded := sess.sessionStats.calls_recorded + 1 } })

/-- The caller-supplied per-wrap options of `wrapAsyncFunction`. -/
structure WrapOptions where
  buildRequestIdentity : Option (List JVal → JVal) := none
  buildArgsPreview : Option (List JVal → Option JVal) := none
  buildMeta : Option (Option JVal → Option JVal) := none

/-- One invocation of a function wrapped by `wrapAsyncFunction`.

`realFunction` is the wrapped asynchronous operation, modelled by its
resolved outcome on the given arguments.  `tStart` and `tEnd` are the
values produced by the two `Date.now()` reads.  `fsFail1` is the outcome
of the first `appendEntry` attempt of this call (`mkdirSync` +
`appendFileSync`, `some e` meaning the I/O layer threw `e`) and `fsFail2`
that of the second attempt, which only happens when the first append
(inside the `try` block) threw and the catch block appends an error
entry.  Returns the call's outcome and the updated session state. -/
def wrappedCall (sess : Session) (callName : String)
    (realFunction : List JVal → Except JSError (Option JVal))
    (opts : WrapOptions) (args : List JVal) (tStart tEnd : Nat)
    (fsFail1 fsFail2 : Option JSError) :
    Except JSError (Option JVal) × Session :=
  let buildRequestIdentity := opts.buildRequestIdentity.getD (fun a => .arr a)
  let buildArgsPreview := opts.buildArgsPreview.getD (fun a => some (.arr a))
  let buildMeta := opts.buildMeta.getD (fun _ => none)
  let requestHash := sha256Hex (stableSerialize (buildRequestIdentity args))
  let lookupKey := callName ++ "::" ++ requestHash
  if sess.mode = .replay then
    let stats1 :=
      { sess.sessionStats with
         calls_replayed := sess.sessionStats.calls_replayed + 1 }
    let missResult :=
      (Except.error (JSError.errorObj "Error"
          ("Cassette miss: no entry for " ++ lookupKey) none),
       { sess with
          sessionStats := { stats1 with replay_misses := stats1.replay_misses + 1 } })
    match mapGet sess.entriesByLookupKeyQueue lookupKey with
    | none => missResult
    | some [] => missResult
    | some (nextEntry :: rest) =>
      let stats2 :=
        { stats1 with
           replay_hits := stats1.replay_hits + 1
           total_tokens_saved_estimate :=
             stats1.total_tokens_saved_estimate +
               getTotalTokensFromMeta (getField nextEntry "meta") }
      let sess1 :=
        { sess with
           entriesByLookupKeyQueue := mapSet sess.entriesByLookupKeyQueue lookupKey rest
           sessionStats := stats2 }
      match getField nextEntry "error" with
      | some errVal =>
        if jsTruthy errVal then
          (.error (.errorObj
             (match getField errVal "name" with
              | some (.str s) => s
              | some v => jsToString v
              | none => "undefined")
             (match getField errVal "message" with
              | some m => jsToString m
              | none => "")
             (match getField errVal "stack" with
              | some (.str s) => some s
              | _ => none)),
           sess1)
        else (.ok (getField nextEntry "result"), sess1)
      | none => (.ok (getField nextEntry "result"), sess1)
  else if sess.mode = .passthrough then
    (realFunction args, sess)
  else
    match realFunction args with
    | .ok result =>
      let meta := buildMeta result
      let entry : CassetteEntry :=
        { call_name := callName
          request_hash := requestHash
          recorded_at_ms := tEnd
          latency_ms := tEnd - tStart
          args_preview := buildArgsPreview args
          result := result
          error := none
          meta := meta }
      match fsFail1 with
      | some fsError =>
        recordCatch sess callName requestHash (buildArgsPreview args)
          tStart tEnd fsError fsFail2
      | none =>
        (.ok result,
         { sess with
            file := sess.file ++ appendEntryLine sess entry
            sessionStats :=
              { sess.sessionStats with
                 calls_recorded := sess.sessionStats.calls_recorded + 1
                 total_tokens_recorded :=
                   sess.sessionStats.total_tokens_recorded +
                     getTotalTokensFromMeta meta } })
    | .error unknownError =>
      recordCatch sess callName requestHash (buildArgsPreview args)
        tStart tEnd unknownError fsFail1

/-- `getSessionStats`: a snapshot of the counters. -/
def getSessionStats (sess : Session) : CassetteSessionStats := sess.sessionStats

/-- The session produced by `createCassette` for a missing file and an
explicit mode: empty queues, zeroed statistics, empty file. -/
def freshSession (m : CassetteMode) : Session :=
  { mode := m
    redactValue := defaultRedactValue
    entriesByLookupKeyQueue := []
    sessionStats :=
      { mode := m
        calls_recorded := 0
        calls_replayed := 0
        replay_hits := 0
        replay_misses := 0
        total_tokens_recorded := 0
        total_tokens_saved_estimate := 0 }
    file := [] }

/-- The data of one invocation of a wrapped operation, for reasoning
about arbitrary call sequences. -/
structure CallSpec where
  callName : String
  realFunction : List JVal → Except JSError (Option JVal)
  opts : WrapOptions
  args : List JVal
  tStart : Nat
  tEnd : Nat
  fsFail1 : Option JSError
  fsFail2 : Option JSError

/-- Run a sequence of wrapped-call invocations, threading the session. -/
def runCalls (sess : Session) : List CallSpec → Session
  | [] => sess
  | c :: cs =>
    runCalls (wrappedCall sess c.callName c.realFunction c.opts c.args
      c.tStart c.tEnd c.fsFail1 c.fsFail2).2 cs


/-- No string occurs twice in the list. -/
def nodupKeysB : List String → Bool
  | [] => true
  | k :: ks => !(ks.any (fun k2 => k2 == k)) && nodupKeysB ks

mutual

/-- Well-formedness of a value as the image of a real JavaScript value:
every object in it has pairwise-distinct keys (a JavaScript object cannot
hold two properties with the same key). -/
def wfB : JVal → Bool
  | .null => true
  | .bool _ => true
  | .num _ => true
  | .str _ => true
  | .arr xs => wfL xs
  | .obj fs => nodupKeysB (fs.map (fun p => p.1)) && wfF fs

def wfL : List JVal → Bool
  | [] => true
  | x :: xs => wfB x && wfL xs

def wfF : List (String × JVal) → Bool
  | [] => true
  | p :: ps => wfB p.2 && wfF ps

end

/-- Two values carry the same data with object keys possibly inserted in
different orders (at any nesting depth): primitives must be equal, arrays
must agree elementwise in order, and the fields of an object on one side
must be a permutation of fields matching those on the other side pairwise
(equal key, recursively same data). -/
def SameData : JVal → JVal → Prop
  | .null, .null => True
  | .bool a, .bool b => a = b
  | .num a, .num b => a = b
  | .str a, .str b => a = b
  | .arr xs, .arr ys =>
    xs.length = ys.length ∧ ∀ p ∈ xs.zip ys, SameData p.1 p.2
  | .obj fs, .obj gs =>
    ∃ gs', gs.Perm gs' ∧ fs.length = gs'.length ∧
      ∀ p ∈ fs.zip gs', p.1.1 = p.2.1 ∧ SameData p.1.2 p.2.2
  | _, _ => False
termination_by v _ => sizeOf v
decreasing_by
  all_goals simp_wf
  · rename_i hmem
    have h1 : p.1 ∈ xs := (List.of_mem_zip (by simpa using hmem)).1
    have h2 := List.sizeOf_lt_of_mem h1
    omega
  · rename_i hmem
    have h1 : p.1 ∈ fs := (List.of_mem_zip (by simpa using hmem)).1
    have h2 := List.sizeOf_lt_of_mem h1
    have h3 : sizeOf p.1.2 < sizeOf p.1 := by
      rcases p with ⟨⟨k, v⟩, q⟩
      simp
    omega

/-- Two values that agree everywhere except that the elements of arrays
may appear in different orders (at any nesting depth): primitives must be
equal, object fields must agree pairwise in order (equal key, related
value), and the elements of an array on one side must be a permutation of
elements related to those on the other side pairwise. -/
def ArrPerm : JVal → JVal → Prop
  | .null, .null => True
  | .bool a, .bool b => a = b
  | .num a, .num b => a = b
  | .str a, .str b => a = b
  | .arr xs, .arr ys =>
    ∃ ys', ys.Perm ys' ∧ xs.length = ys'.length ∧
      ∀ p ∈ xs.zip ys', ArrPerm p.1 p.2
  | .obj fs, .obj gs =>
    fs.length = gs.length ∧ ∀ p ∈ fs.zip gs, p.1.1 = p.2.1 ∧ ArrPerm p.1.2 p.2.2
  | _, _ => False
termination_by v _ => sizeOf v
decreasing_by
  all_goals simp_wf
  · rename_i hmem
    have h1 : p.1 ∈ xs := (List.of_mem_zip (by simpa using hmem)).1
    have h2 := List.sizeOf_lt_of_mem h1
    omega
  · rename_i hmem
    have h1 : p.1 ∈ fs := (List.of_mem_zip (by simpa using hmem)).1
    have h2 := List.sizeOf_lt_of_mem h1
    have h3 : sizeOf p.1.2 < sizeOf p.1 := by
      rcases p with ⟨⟨k, v⟩, q⟩
      simp
    omega

mutual

/-- A size measure dominating the parser fuel needed to re-parse the
serialization of a value. -/
def sizeV : JVal → Nat
  | .null => 1
  | .bool _ => 1
  | .num _ => 1
  | .str _ => 1
  | .arr xs => 1 + sizeL xs
  | .obj fs => 1 + sizeF fs

def sizeL : List JVal → Nat
  | [] => 1
  | x :: xs => 1 + sizeV x + sizeL xs

def sizeF : List (String × JVal) → Nat
  | [] => 1
  | p :: ps => 1 + sizeV p.2 + sizeF ps

end


/-- The serialized JSONL text of a list of records: each record's JSON
text followed by a newline. -/
def jsonlOf : List JVal → List Char
  | [] => []
  | v :: vs => serV v ++ '\n' :: jsonlOf vs

/-- A suffix in front of which a serialized value can be re-parsed
unambiguously: empty, or starting with a non-digit (inside serialized
arrays and objects every value is followed by a comma or a closing
bracket). -/
def delimOkB : List Char → Bool
  | [] => true
  | c :: _ => !c.isDigit


/-! ### Generic structural lemmas -/

/-- Structural induction for `JVal` with membership hypotheses for the
nested lists. -/
theorem JVal.indOn {P : JVal → Prop}
    (hnull : P .null) (hbool : ∀ b, P (.bool b)) (hnum : ∀ n, P (.num n))
    (hstr : ∀ s, P (.str s))
    (harr : ∀ xs, (∀ x ∈ xs, P x) → P (.arr xs))
    (hobj : ∀ fs, (∀ p ∈ fs, P p.2) → P (.obj fs)) :
    ∀ v, P v
  | .null => hnull
  | .bool b => hbool b
  | .num n => hnum n
  | .str s => hstr s
  | .arr xs =>
    harr xs (fun x _ => JVal.indOn hnull hbool hnum hstr harr hobj x)
  | .obj fs =>
    hobj fs (fun p _ => JVal.indOn hnull hbool hnum hstr harr hobj p.2)
termination_by v => sizeOf v
decreasing_by
  · have h2 := List.sizeOf_lt_of_mem (by assumption : x ∈ xs)
    simp
    omega
  · have h2 := List.sizeOf_lt_of_mem (by assumption : p ∈ fs)
    have h3 : sizeOf p.2 < sizeOf p := by
      rcases p with ⟨k, q⟩
      simp
    simp
    omega

theorem beqV_refl : ∀ v, beqV v v = true := by
  intro v
  induction v using JVal.indOn with
  | hnull => rfl
  | hbool b => simp [beqV]
  | hnum n => simp [beqV]
  | hstr s => simp [beqV]
  | harr xs ih =>
    simp only [beqV]
    induction xs with
    | nil => rfl
    | cons x xs ihl =>
      simp only [beqL, Bool.and_eq_true]
      exact ⟨ih x (by simp), ihl (fun y hy => ih y (by simp [hy]))⟩
  | hobj fs ih =>
    simp only [beqV]
    induction fs with
    | nil => rfl
    | cons p ps ihl =>
      simp only [beqF, Bool.and_eq_true]
      exact ⟨⟨by simp, ih p (by simp)⟩, ihl (fun q hq => ih q (by simp [hq]))⟩

theorem ne_of_beqV_eq_false {v w : JVal} (h : beqV v w = false) : v ≠ w := by
  intro hvw
  rw [hvw, beqV_refl] at h
  cases h

@[simp] theorem sortKeysList_eq (xs : List JVal) :
    sortKeysList xs = xs.map sortKeysRecursively := by
  induction xs with
  | nil => rfl
  | cons x xs ih => simp [sortKeysList, ih]

@[simp] theorem sortKeysFields_eq (fs : List (String × JVal)) :
    sortKeysFields fs = fs.map (fun p => (p.1, sortKeysRecursively p.2)) := by
  induction fs with
  | nil => rfl
  | cons p ps ih => simp [sortKeysFields, ih]

@[simp] theorem redactLs_eq (xs : List JVal) :
    redactLs xs = xs.map defaultRedactValue := by
  induction xs with
  | nil => rfl
  | cons x xs ih => simp [redactLs, ih]

@[simp] theorem redactFs_eq (fs : List (String × JVal)) :
    redactFs fs = fs.map (fun p => (p.1, defaultRedactValue p.2)) := by
  induction fs with
  | nil => rfl
  | cons p ps ih => simp [redactFs, ih]

@[simp] theorem stringLeavesL_eq (xs : List JVal) :
    stringLeavesL xs = (xs.map stringLeaves).flatten := by
  induction xs with
  | nil => rfl
  | cons x xs ih => simp [stringLeavesL, ih]

@[simp] theorem stringLeavesF_eq (fs : List (String × JVal)) :
    stringLeavesF fs = (fs.map (fun p => stringLeaves p.2)).flatten := by
  induction fs with
  | nil => rfl
  | cons p ps ih => simp [stringLeavesF, ih]

/-- The source's order of operations for objects: sort the fields by key
first, then recurse into each value (sorting only inspects keys, so the
two orders agree). -/
theorem sortKeysRecursively_obj (fs : List (String × JVal)) :
    sortKeysRecursively (.obj fs) =
      .obj ((sortFields fs).map (fun p => (p.1, sortKeysRecursively p.2))) := by
  simp only [sortKeysRecursively, sortKeysFields_eq, sortFields]
  congr 1
  induction fs with
  | nil => rfl
  | cons p ps ih =>
    simp only [List.map, List.insertionSort, ih]
    generalize List.insertionSort (fun p q => strLeB p.1 q.1 = true) ps = l
    induction l with
    | nil => rfl
    | cons q qs ihq =>
      simp only [List.orderedInsert, List.map]
      by_cases h : strLeB p.1 q.1 = true
      · simp [h]
      · simp [h, ihq]


/-! ### The string order used for key sorting -/

theorem ltCharsB_trichotomy : ∀ a b, ltCharsB a b = true ∨ a = b ∨ ltCharsB b a = true := by
  intro a
  induction a with
  | nil =>
    intro b
    cases b with
    | nil => simp [ltCharsB]
    | cons d ds => simp [ltCharsB]
  | cons c cs ih =>
    intro b
    cases b with
    | nil => simp [ltCharsB]
    | cons d ds =>
      rcases Nat.lt_trichotomy c.toNat d.toNat with h | h | h
      · left
        simp [ltCharsB, h]
      · have hcd : c = d := Char.ext (UInt32.ext h)
        subst hcd
        rcases ih ds with h2 | h2 | h2
        · left
          simp [ltCharsB, h2]
        · right ; left
          rw [h2]
        · right ; right
          simp [ltCharsB, h2]
      · right ; right
        simp [ltCharsB, h]

theorem ltCharsB_asymm : ∀ a b, ltCharsB a b = true → ltCharsB b a = false := by
  intro a
  induction a with
  | nil =>
    intro b h
    cases b with
    | nil => simp [ltCharsB] at h
    | cons d ds => simp [ltCharsB]
  | cons c cs ih =>
    intro b h
    cases b with
    | nil => simp [ltCharsB] at h
    | cons d ds =>
      simp only [ltCharsB] at h ⊢
      rcases Nat.lt_trichotomy c.toNat d.toNat with h2 | h2 | h2
      · simp [h2, Nat.lt_asymm h2]
      · simp only [h2, Nat.lt_irrefl, if_false] at h ⊢
        exact ih ds h
      · simp [h2, Nat.lt_asymm h2] at h

theorem ltCharsB_cons_iff {c d : Char} {cs ds : List Char} :
    ltCharsB (c :: cs) (d :: ds) = true ↔
      (c.toNat < d.toNat ∨ (c.toNat = d.toNat ∧ ltCharsB cs ds = true)) := by
  rw [ltCharsB]
  split_ifs with h1 h2
  · simp [h1]
  · constructor
    · intro h
      cases h
    · intro h
      omega
  · have he : c.toNat = d.toNat := by omega
    simp [he]

theorem ltCharsB_trans : ∀ a b c, ltCharsB a b = true → ltCharsB b c = true →
    ltCharsB a c = true := by
  intro a
  induction a with
  | nil =>
    intro b c h1 h2
    cases b with
    | nil => simp [ltCharsB] at h1
    | cons d ds =>
      cases c with
      | nil => simp [ltCharsB] at h2
      | cons e es => simp [ltCharsB]
  | cons x xs ih =>
    intro b c h1 h2
    cases b with
    | nil => simp [ltCharsB] at h1
    | cons d ds =>
      cases c with
      | nil => simp [ltCharsB] at h2
      | cons e es =>
        rw [ltCharsB_cons_iff] at h1 h2 ⊢
        rcases h1 with h1 | ⟨h1e, h1r⟩
        · rcases h2 with h2 | ⟨h2e, h2r⟩
          · left
            omega
          · left
            omega
        · rcases h2 with h2 | ⟨h2e, h2r⟩
          · left
            omega
          · right
            exact ⟨by omega, ih ds es h1r h2r⟩

theorem strLeB_total (s t : String) : strLeB s t = true ∨ strLeB t s = true := by
  simp only [strLeB, Bool.not_eq_true']
  cases h : ltCharsB t.data s.data
  · left
    rfl
  · right
    exact ltCharsB_asymm _ _ h

theorem strLeB_trans {s t u : String} (h1 : strLeB s t = true)
    (h2 : strLeB t u = true) : strLeB s u = true := by
  simp only [strLeB, Bool.not_eq_true'] at h1 h2 ⊢
  by_contra hne
  have hus : ltCharsB u.data s.data = true := by
    cases h : ltCharsB u.data s.data
    · exact absurd h hne
    · rfl
  rcases ltCharsB_trichotomy t.data u.data with h3 | h3 | h3
  · exact absurd (ltCharsB_trans _ _ _ h3 hus) (by simp [h1])
  · rw [← h3] at hus
    exact absurd hus (by simp [h1])
  · exact absurd h3 (by simp [h2])

theorem strLeB_antisymm {s t : String} (h1 : strLeB s t = true)
    (h2 : strLeB t s = true) : s = t := by
  simp only [strLeB, Bool.not_eq_true'] at h1 h2
  rcases ltCharsB_trichotomy s.data t.data with h | h | h
  · rw [h] at h2
    cases h2
  · cases s
    cases t
    exact congrArg String.mk (by simpa using h)
  · rw [h] at h1
    cases h1

/-- The key comparison used by `sortFields`. -/
def keyle (p q : String × JVal) : Prop := strLeB p.1 q.1 = true

instance : DecidableRel keyle :=
  fun p q => inferInstanceAs (Decidable (strLeB p.1 q.1 = true))

instance : IsTotal (String × JVal) keyle := ⟨fun p q => strLeB_total p.1 q.1⟩

instance : IsTrans (String × JVal) keyle := ⟨fun _ _ _ => strLeB_trans⟩

instance : IsAntisymm (String × JVal) (fun p q => keyle p q ∧ p.1 ≠ q.1) :=
  ⟨fun _ _ h1 h2 => absurd (strLeB_antisymm h1.1 h2.1) h1.2⟩

theorem sortFields_eq_insertionSort (fs : List (String × JVal)) :
    sortFields fs = List.insertionSort keyle fs := rfl

theorem sortFields_perm (fs : List (String × JVal)) : (sortFields fs).Perm fs :=
  List.perm_insertionSort keyle fs

theorem sortFields_sorted (fs : List (String × JVal)) :
    (sortFields fs).Sorted keyle :=
  List.sorted_insertionSort keyle fs

/-- Two permuted field lists with pairwise-distinct keys have the same
key-sorted form. -/
theorem sortFields_eq_of_perm {fs gs : List (String × JVal)}
    (hperm : fs.Perm gs) (hnd : (fs.map (fun p => p.1)).Nodup) :
    sortFields fs = sortFields gs := by
  have hperm2 : (sortFields fs).Perm (sortFields gs) :=
    ((sortFields_perm fs).trans hperm).trans (sortFields_perm gs).symm
  have hndf : (sortFields fs).Pairwise (fun p q => p.1 ≠ q.1) := by
    have : ((sortFields fs).map (fun p => p.1)).Nodup :=
      (((sortFields_perm fs).map (fun p => p.1)).nodup_iff).2 hnd
    exact List.pairwise_map.1 this
  have hndg : (sortFields gs).Pairwise (fun p q => p.1 ≠ q.1) := by
    have hnd2 : (gs.map (fun p => p.1)).Nodup :=
      ((hperm.map (fun p => p.1)).nodup_iff).1 hnd
    have : ((sortFields gs).map (fun p => p.1)).Nodup :=
      (((sortFields_perm gs).map (fun p => p.1)).nodup_iff).2 hnd2
    exact List.pairwise_map.1 this
  exact List.eq_of_perm_of_sorted hperm2
    ((sortFields_sorted fs).and hndf) ((sortFields_sorted gs).and hndg)

/-- A key-preserving pairwise relation between field lists survives
key-sorting both sides. -/
theorem forall₂_orderedInsert {R : (String × JVal) → (String × JVal) → Prop}
    (hkey : ∀ p q, R p q → p.1 = q.1) {p q : String × JVal} (hpq : R p q) :
    ∀ {l m : List (String × JVal)}, List.Forall₂ R l m →
      List.Forall₂ R (List.orderedInsert keyle p l) (List.orderedInsert keyle q m) := by
  intro l
  induction l with
  | nil =>
    intro m h
    cases h
    exact List.Forall₂.cons hpq List.Forall₂.nil
  | cons a as ih =>
    intro m h
    cases h with
    | cons hab hrest =>
      rename_i b bs
      simp only [List.orderedInsert]
      have hk1 : p.1 = q.1 := hkey _ _ hpq
      have hk2 : a.1 = b.1 := hkey _ _ hab
      by_cases hle : keyle p a
      · rw [if_pos hle, if_pos (by simpa [keyle, hk1, hk2] using hle)]
        exact List.Forall₂.cons hpq (List.Forall₂.cons hab hrest)
      · rw [if_neg hle, if_neg (by simpa [keyle, hk1, hk2] using hle)]
        exact List.Forall₂.cons hab (ih hrest)

theorem forall₂_sortFields {R : (String × JVal) → (String × JVal) → Prop}
    (hkey : ∀ p q, R p q → p.1 = q.1) :
    ∀ {fs gs : List (String × JVal)}, List.Forall₂ R fs gs →
      List.Forall₂ R (sortFields fs) (sortFields gs) := by
  intro fs
  induction fs with
  | nil =>
    intro gs h
    cases h
    exact List.Forall₂.nil
  | cons p ps ih =>
    intro gs h
    cases h with
    | cons hpq hrest =>
      simp only [sortFields_eq_insertionSort, List.insertionSort]
      exact forall₂_orderedInsert hkey hpq (ih hrest)


/-! ### Same-data equivalence and the canonical form -/

theorem zip_forall_iff {α β : Type} {R : α → β → Prop} {l1 : List α} {l2 : List β} :
    (l1.length = l2.length ∧ ∀ p ∈ l1.zip l2, R p.1 p.2) ↔ List.Forall₂ R l1 l2 := by
  rw [List.forall₂_iff_zip]
  constructor
  · intro h
    exact ⟨h.1, fun hab => h.2 _ hab⟩
  · intro h
    exact ⟨h.1, fun p hp => h.2 hp⟩

theorem sameData_arr_iff {xs ys : List JVal} :
    SameData (.arr xs) (.arr ys) ↔ List.Forall₂ SameData xs ys := by
  rw [show SameData (.arr xs) (.arr ys) =
      (xs.length = ys.length ∧ ∀ p ∈ xs.zip ys, SameData p.1 p.2) from by
    simp [SameData]]
  exact zip_forall_iff

theorem sameData_obj_iff {fs gs : List (String × JVal)} :
    SameData (.obj fs) (.obj gs) ↔
      ∃ gs', gs.Perm gs' ∧
        List.Forall₂ (fun p q => p.1 = q.1 ∧ SameData p.2 q.2) fs gs' := by
  rw [show SameData (.obj fs) (.obj gs) =
      (∃ gs', gs.Perm gs' ∧ fs.length = gs'.length ∧
        ∀ p ∈ fs.zip gs', p.1.1 = p.2.1 ∧ SameData p.1.2 p.2.2) from by
    simp [SameData]]
  constructor
  · rintro ⟨gs', h1, h2, h3⟩
    exact ⟨gs', h1, zip_forall_iff.1 ⟨h2, h3⟩⟩
  · rintro ⟨gs', h1, h2⟩
    have := zip_forall_iff.2 h2
    exact ⟨gs', h1, this.1, this.2⟩

theorem arrPerm_arr_iff {xs ys : List JVal} :
    ArrPerm (.arr xs) (.arr ys) ↔
      ∃ ys', ys.Perm ys' ∧ List.Forall₂ ArrPerm xs ys' := by
  rw [show ArrPerm (.arr xs) (.arr ys) =
      (∃ ys', ys.Perm ys' ∧ xs.length = ys'.length ∧
        ∀ p ∈ xs.zip ys', ArrPerm p.1 p.2) from by
    simp [ArrPerm]]
  constructor
  · rintro ⟨ys', h1, h2, h3⟩
    exact ⟨ys', h1, zip_forall_iff.1 ⟨h2, h3⟩⟩
  · rintro ⟨ys', h1, h2⟩
    have := zip_forall_iff.2 h2
    exact ⟨ys', h1, this.1, this.2⟩

theorem arrPerm_obj_iff {fs gs : List (String × JVal)} :
    ArrPerm (.obj fs) (.obj gs) ↔
      List.Forall₂ (fun p q => p.1 = q.1 ∧ ArrPerm p.2 q.2) fs gs := by
  rw [show ArrPerm (.obj fs) (.obj gs) =
      (fs.length = gs.length ∧ ∀ p ∈ fs.zip gs, p.1.1 = p.2.1 ∧ ArrPerm p.1.2 p.2.2) from by
    simp [ArrPerm]]
  exact zip_forall_iff (R := fun (p q : String × JVal) => p.1 = q.1 ∧ ArrPerm p.2 q.2)

/-- Transport a pairwise relation along a permutation of its right-hand
list. -/
theorem forall₂_perm_right {α β : Type} {R : α → β → Prop} :
    ∀ {bs bs' : List β}, bs.Perm bs' → ∀ {as : List α}, List.Forall₂ R as bs →
      ∃ as', as.Perm as' ∧ List.Forall₂ R as' bs' := by
  intro bs bs' hperm
  induction hperm with
  | nil =>
    intro as h
    cases h
    exact ⟨[], List.Perm.nil, List.Forall₂.nil⟩
  | cons x hl ih =>
    intro as h
    cases h with
    | cons ha hrest =>
      rename_i a as₁
      obtain ⟨as₁', hp, hf⟩ := ih hrest
      exact ⟨a :: as₁', hp.cons a, List.Forall₂.cons ha hf⟩
  | swap x y l =>
    intro as h
    cases h with
    | cons ha hrest =>
      rename_i a as₁
      cases hrest with
      | cons hb hrest2 =>
        rename_i b as₂
        exact ⟨b :: a :: as₂, List.Perm.swap b a as₂,
          List.Forall₂.cons hb (List.Forall₂.cons ha hrest2)⟩
  | trans h1 h2 ih1 ih2 =>
    intro as h
    obtain ⟨as₁, hp1, hf1⟩ := ih1 h
    obtain ⟨as₂, hp2, hf2⟩ := ih2 hf1
    exact ⟨as₂, hp1.trans hp2, hf2⟩

/-- Transport a pairwise relation along a permutation of its left-hand
list. -/
theorem forall₂_perm_left {α β : Type} {R : α → β → Prop}
    {as as' : List α} {bs : List β} (hperm : as.Perm as')
    (h : List.Forall₂ R as bs) :
    ∃ bs', bs.Perm bs' ∧ List.Forall₂ R as' bs' := by
  obtain ⟨bs', hp, hf⟩ := forall₂_perm_right (R := fun b a => R a b) hperm h.flip
  exact ⟨bs', hp, hf.flip⟩

/-- Pointwise composition of two pairwise relations, with membership
available for the left list. -/
theorem forall₂_comp_mem {α β γ : Type} {R : α → β → Prop} {S : β → γ → Prop}
    {T : α → γ → Prop} :
    ∀ {as : List α} {bs : List β} {cs : List γ},
      List.Forall₂ R as bs → List.Forall₂ S bs cs →
      (∀ a ∈ as, ∀ b c, R a b → S b c → T a c) → List.Forall₂ T as cs := by
  intro as
  induction as with
  | nil =>
    intro bs cs h1 h2 _
    cases h1
    cases h2
    exact List.Forall₂.nil
  | cons a as ih =>
    intro bs cs h1 h2 hcomp
    cases h1 with
    | cons hab h1rest =>
      cases h2 with
      | cons hbc h2rest =>
        exact List.Forall₂.cons (hcomp a (by simp) _ _ hab hbc)
          (ih h1rest h2rest (fun x hx => hcomp x (by simp [hx])))

theorem sameData_refl : ∀ v, SameData v v := by
  intro v
  induction v using JVal.indOn with
  | hnull => simp [SameData]
  | hbool b => simp [SameData]
  | hnum n => simp [SameData]
  | hstr s => simp [SameData]
  | harr xs ih =>
    rw [sameData_arr_iff]
    exact List.forall₂_same.2 ih
  | hobj fs ih =>
    rw [sameData_obj_iff]
    exact ⟨fs, List.Perm.refl fs, List.forall₂_same.2 (fun p hp => ⟨rfl, ih p hp⟩)⟩

theorem arrPerm_refl : ∀ v, ArrPerm v v := by
  intro v
  induction v using JVal.indOn with
  | hnull => simp [ArrPerm]
  | hbool b => simp [ArrPerm]
  | hnum n => simp [ArrPerm]
  | hstr s => simp [ArrPerm]
  | harr xs ih =>
    rw [arrPerm_arr_iff]
    exact ⟨xs, List.Perm.refl xs, List.forall₂_same.2 ih⟩
  | hobj fs ih =>
    rw [arrPerm_obj_iff]
    exact List.forall₂_same.2 (fun p hp => ⟨rfl, ih p hp⟩)

/-- The canonical form carries the same data as the value itself. -/
theorem sameData_sortKeys : ∀ v, SameData v (sortKeysRecursively v) := by
  intro v
  induction v using JVal.indOn with
  | hnull => simp [SameData, sortKeysRecursively]
  | hbool b => simp [SameData, sortKeysRecursively]
  | hnum n => simp [SameData, sortKeysRecursively]
  | hstr s => simp [SameData, sortKeysRecursively]
  | harr xs ih =>
    rw [show sortKeysRecursively (.arr xs) = .arr (xs.map sortKeysRecursively) from by
      simp [sortKeysRecursively]]
    rw [sameData_arr_iff]
    induction xs with
    | nil => exact List.Forall₂.nil
    | cons x xs ihl =>
      exact List.Forall₂.cons (ih x (by simp))
        (ihl (fun y hy => ih y (by simp [hy])))
  | hobj fs ih =>
    rw [show sortKeysRecursively (.obj fs) =
        .obj (sortFields (fs.map (fun p => (p.1, sortKeysRecursively p.2)))) from by
      simp [sortKeysRecursively]]
    rw [sameData_obj_iff]
    refine ⟨fs.map (fun p => (p.1, sortKeysRecursively p.2)), sortFields_perm _, ?_⟩
    induction fs with
    | nil => exact List.Forall₂.nil
    | cons p ps ihl =>
      exact List.Forall₂.cons ⟨rfl, ih p (by simp)⟩
        (ihl (fun q hq => ih q (by simp [hq])))

theorem sameData_symm : ∀ v w, SameData v w → SameData w v := by
  intro v
  induction v using JVal.indOn with
  | hnull =>
    intro w h
    cases w <;> simp_all [SameData]
  | hbool b =>
    intro w h
    cases w <;> simp_all [SameData]
  | hnum n =>
    intro w h
    cases w <;> simp_all [SameData]
  | hstr s =>
    intro w h
    cases w <;> simp_all [SameData]
  | harr xs ih =>
    intro w h
    cases w with
    | arr ys =>
      rw [sameData_arr_iff] at h ⊢
      clear * - h ih
      induction h with
      | nil => exact List.Forall₂.nil
      | cons ha hrest ihf =>
        rename_i x y xs' ys'
        exact List.Forall₂.cons (ih x (by simp) y ha)
          (ihf (fun a haa => ih a (by simp [haa])))
    | null => simp_all [SameData]
    | bool b => simp_all [SameData]
    | num n => simp_all [SameData]
    | str s => simp_all [SameData]
    | obj gs => simp_all [SameData]
  | hobj fs ih =>
    intro w h
    cases w with
    | obj gs =>
      rw [sameData_obj_iff] at h ⊢
      obtain ⟨gs', hperm, hf⟩ := h
      have hflip : List.Forall₂ (fun q p => q.1 = p.1 ∧ SameData q.2 p.2) gs' fs := by
        clear * - hf ih
        induction hf with
        | nil => exact List.Forall₂.nil
        | cons ha hrest ihf =>
          rename_i p q ps qs
          exact List.Forall₂.cons ⟨ha.1.symm, ih p (by simp) q.2 ha.2⟩
            (ihf (fun a haa => ih a (by simp [haa])))
      obtain ⟨fs', hpf, hff⟩ := forall₂_perm_left hperm.symm hflip
      exact ⟨fs', hpf, hff⟩
    | null => simp_all [SameData]
    | bool b => simp_all [SameData]
    | num n => simp_all [SameData]
    | str s => simp_all [SameData]
    | arr ys => simp_all [SameData]


theorem sameData_trans : ∀ u v w, SameData u v → SameData v w → SameData u w := by
  intro u
  induction u using JVal.indOn with
  | hnull =>
    intro v w h1 h2
    cases v <;> cases w <;> simp_all [SameData]
  | hbool b =>
    intro v w h1 h2
    cases v <;> cases w <;> simp_all [SameData]
  | hnum n =>
    intro v w h1 h2
    cases v <;> cases w <;> simp_all [SameData]
  | hstr s =>
    intro v w h1 h2
    cases v <;> cases w <;> simp_all [SameData]
  | harr xs ih =>
    intro v w h1 h2
    cases v with
    | arr ys =>
      cases w with
      | arr zs =>
        rw [sameData_arr_iff] at h1 h2 ⊢
        exact forall₂_comp_mem h1 h2
          (fun a ha b c hab hbc => ih a ha b c hab hbc)
      | null => simp_all [SameData]
      | bool b => simp_all [SameData]
      | num n => simp_all [SameData]
      | str s => simp_all [SameData]
      | obj gs => simp_all [SameData]
    | null => simp_all [SameData]
    | bool b => simp_all [SameData]
    | num n => simp_all [SameData]
    | str s => simp_all [SameData]
    | obj gs => simp_all [SameData]
  | hobj fs ih =>
    intro v w h1 h2
    cases v with
    | obj gs =>
      cases w with
      | obj hs =>
        rw [sameData_obj_iff] at h1 h2 ⊢
        obtain ⟨gs₁, hpg, hf1⟩ := h1
        obtain ⟨hs₁, hph, hf2⟩ := h2
        obtain ⟨hs₂, hph2, hf2'⟩ := forall₂_perm_left hpg hf2
        refine ⟨hs₂, hph.trans hph2, ?_⟩
        exact forall₂_comp_mem hf1 hf2'
          (fun p hp q r hpq hqr =>
            ⟨hpq.1.trans hqr.1, ih p hp q.2 r.2 hpq.2 hqr.2⟩)
      | null => simp_all [SameData]
      | bool b => simp_all [SameData]
      | num n => simp_all [SameData]
      | str s => simp_all [SameData]
      | arr ys => simp_all [SameData]
    | null => simp_all [SameData]
    | bool b => simp_all [SameData]
    | num n => simp_all [SameData]
    | str s => simp_all [SameData]
    | arr ys => simp_all [SameData]

@[simp] theorem wfL_eq (xs : List JVal) : wfL xs = xs.all wfB := by
  induction xs with
  | nil => rfl
  | cons x xs ih => simp [wfL, ih]

@[simp] theorem wfF_eq (fs : List (String × JVal)) :
    wfF fs = fs.all (fun p => wfB p.2) := by
  induction fs with
  | nil => rfl
  | cons p ps ih => simp [wfF, ih]

/-- Keys with no duplicates, as a proposition. -/
theorem nodup_of_nodupKeysB : ∀ {ks : List String}, nodupKeysB ks = true → ks.Nodup := by
  intro ks
  induction ks with
  | nil =>
    intro _
    exact List.nodup_nil
  | cons k ks ih =>
    intro h
    simp only [nodupKeysB, Bool.and_eq_true, Bool.not_eq_true'] at h
    refine List.Nodup.cons ?_ (ih h.2)
    intro hmem
    have : ks.any (fun k2 => k2 == k) = true := by
      rw [List.any_eq_true]
      exact ⟨k, hmem, by simp⟩
    rw [this] at h
    exact absurd h.1 (by simp)

theorem mapSort_eq_of_forall₂ : ∀ (xs ys : List JVal),
    List.Forall₂ SameData xs ys →
    (∀ x ∈ xs, ∀ w, wfB x = true → wfB w = true → SameData x w →
      sortKeysRecursively x = sortKeysRecursively w) →
    (∀ x ∈ xs, wfB x = true) → (∀ y ∈ ys, wfB y = true) →
    xs.map sortKeysRecursively = ys.map sortKeysRecursively := by
  intro xs
  induction xs with
  | nil =>
    intro ys hf _ _ _
    cases hf
    rfl
  | cons x xs ihl =>
    intro ys hf hih hwx hwy
    cases hf with
    | cons ha hrest =>
      rename_i y ys'
      simp only [List.map]
      rw [hih x (by simp) y (hwx x (by simp)) (hwy y (by simp)) ha]
      exact congrArg _ (ihl ys' hrest (fun a haa => hih a (by simp [haa]))
        (fun a haa => hwx a (by simp [haa])) (fun a haa => hwy a (by simp [haa])))

theorem mapValsSort_eq_of_forall₂ : ∀ (fs gs : List (String × JVal)),
    List.Forall₂ (fun p q => p.1 = q.1 ∧ SameData p.2 q.2) fs gs →
    (∀ p ∈ fs, ∀ w, wfB p.2 = true → wfB w = true → SameData p.2 w →
      sortKeysRecursively p.2 = sortKeysRecursively w) →
    (∀ p ∈ fs, wfB p.2 = true) → (∀ q ∈ gs, wfB q.2 = true) →
    fs.map (fun p => (p.1, sortKeysRecursively p.2)) =
      gs.map (fun p => (p.1, sortKeysRecursively p.2)) := by
  intro fs
  induction fs with
  | nil =>
    intro gs hf _ _ _
    cases hf
    rfl
  | cons p ps ihl =>
    intro gs hf hih hwf hwg
    cases hf with
    | cons ha hrest =>
      rename_i q qs
      simp only [List.map]
      rw [show p.1 = q.1 from ha.1,
        hih p (by simp) q.2 (hwf p (by simp)) (hwg q (by simp)) ha.2]
      exact congrArg _ (ihl qs hrest (fun a haa => hih a (by simp [haa]))
        (fun a haa => hwf a (by simp [haa])) (fun a haa => hwg a (by simp [haa])))

/-- Well-formed values with the same data have the same canonical form.
This is the heart of the canonical serializer's insertion-order
independence. -/
theorem sortKeys_eq_of_sameData :
    ∀ v w, wfB v = true → wfB w = true → SameData v w →
      sortKeysRecursively v = sortKeysRecursively w := by
  intro v
  induction v using JVal.indOn with
  | hnull =>
    intro w _ _ h
    cases w <;> simp_all [SameData]
  | hbool b =>
    intro w _ _ h
    cases w <;> simp_all [SameData, sortKeysRecursively]
  | hnum n =>
    intro w _ _ h
    cases w <;> simp_all [SameData, sortKeysRecursively]
  | hstr s =>
    intro w _ _ h
    cases w <;> simp_all [SameData, sortKeysRecursively]
  | harr xs ih =>
    intro w hwv hww h
    cases w with
    | arr ys =>
      rw [sameData_arr_iff] at h
      simp only [sortKeysRecursively, sortKeysList_eq]
      simp only [wfB, wfL_eq, List.all_eq_true] at hwv hww
      exact congrArg _ (mapSort_eq_of_forall₂ xs ys h ih hwv hww)
    | null => simp_all [SameData]
    | bool b => simp_all [SameData]
    | num n => simp_all [SameData]
    | str s => simp_all [SameData]
    | obj gs => simp_all [SameData]
  | hobj fs ih =>
    intro w hwv hww h
    cases w with
    | obj gs =>
      rw [sameData_obj_iff] at h
      obtain ⟨gs', hperm, hf⟩ := h
      simp only [wfB, Bool.and_eq_true, wfF_eq, List.all_eq_true] at hwv hww
      simp only [sortKeysRecursively, sortKeysFields_eq]
      congr 1
      have hwg' : ∀ q ∈ gs', wfB q.2 = true :=
        fun q hq => hww.2 q (hperm.symm.subset hq)
      rw [mapValsSort_eq_of_forall₂ fs gs' hf ih hwv.2 hwg']
      apply sortFields_eq_of_perm
      · exact hperm.symm.map (fun p => (p.1, sortKeysRecursively p.2))
      · have heq : (gs'.map (fun p => (p.1, sortKeysRecursively p.2))).map
            (fun p => p.1) = gs'.map (fun p => p.1) := by
          simp
        rw [heq]
        have hnd : (gs.map (fun p => p.1)).Nodup :=
          nodup_of_nodupKeysB hww.1
        exact ((hperm.map (fun p => p.1)).nodup_iff).1 hnd
    | null => simp_all [SameData]
    | bool b => simp_all [SameData]
    | num n => simp_all [SameData]
    | str s => simp_all [SameData]
    | arr ys => simp_all [SameData]

/-- Equality of canonical forms characterizes same-data. -/
theorem sameData_of_sortKeys_eq {v w : JVal}
    (h : sortKeysRecursively v = sortKeysRecursively w) : SameData v w :=
  sameData_trans v (sortKeysRecursively w) w
    (h ▸ sameData_sortKeys v)
    (sameData_symm w (sortKeysRecursively w) (sameData_sortKeys w))


/-! ### Round-tripping the serializer through the parser: numbers -/

theorem natCharsGo_acc : ∀ (f n : Nat) (acc : List Char),
    natCharsGo f n acc = natCharsGo f n [] ++ acc := by
  intro f
  induction f with
  | zero =>
    intro n acc
    rfl
  | succ f ih =>
    intro n acc
    by_cases h : n < 10
    · simp [natCharsGo, h]
    · simp only [natCharsGo, h, if_false]
      rw [ih (n / 10) (Nat.digitChar (n % 10) :: acc),
        ih (n / 10) [Nat.digitChar (n % 10)]]
      simp

theorem natCharsGo_fuel : ∀ (f f' n : Nat) (acc : List Char), n < f → n < f' →
    natCharsGo f n acc = natCharsGo f' n acc := by
  intro f
  induction f with
  | zero =>
    intro f' n acc h _
    omega
  | succ f ih =>
    intro f' n acc h h'
    cases f' with
    | zero => omega
    | succ f'' =>
      by_cases h10 : n < 10
      · simp [natCharsGo, h10]
      · simp only [natCharsGo, h10, if_false]
        exact ih f'' (n / 10) _ (by omega) (by omega)

theorem natChars_split {n : Nat} (h : ¬ n < 10) :
    natChars n = natChars (n / 10) ++ [Nat.digitChar (n % 10)] := by
  rw [natChars, natChars]
  simp only [natCharsGo, h, if_false]
  rw [natCharsGo_acc n (n / 10) [Nat.digitChar (n % 10)],
    natCharsGo_fuel n (n / 10 + 1) (n / 10) [] (by omega) (by omega)]
  by_cases h2 : n / 10 < 10 <;> simp [natCharsGo, h2]

theorem natChars_small {n : Nat} (h : n < 10) :
    natChars n = [Nat.digitChar n] := by
  rw [natChars]
  simp [natCharsGo, h]

theorem digitChar_toNat : ∀ m, m < 10 → (Nat.digitChar m).toNat = m + 48 := by
  decide

theorem digitChar_isDigit : ∀ m, m < 10 → (Nat.digitChar m).isDigit = true := by
  decide

theorem natChars_ne_nil : ∀ n, natChars n ≠ [] := by
  intro n
  by_cases h : n < 10
  · rw [natChars_small h]
    simp
  · rw [natChars_split h]
    simp

theorem natChars_digits : ∀ n, ∀ c ∈ natChars n, c.isDigit = true := by
  intro n
  induction n using Nat.strong_induction_on with
  | _ n ih =>
    by_cases h : n < 10
    · rw [natChars_small h]
      intro c hc
      rw [List.mem_singleton] at hc
      subst hc
      exact digitChar_isDigit n h
    · rw [natChars_split h]
      intro c hc
      rw [List.mem_append] at hc
      rcases hc with hc | hc
      · exact ih (n / 10) (by omega) c hc
      · rw [List.mem_singleton] at hc
        subst hc
        exact digitChar_isDigit (n % 10) (by omega)

theorem digsGo_natChars : ∀ n, ∀ (acc : Nat) (rest : List Char),
    digsGo acc (natChars n ++ rest) =
      digsGo (acc * 10 ^ (natChars n).length + n) rest := by
  intro n
  induction n using Nat.strong_induction_on with
  | _ n ih =>
    intro acc rest
    by_cases h : n < 10
    · rw [natChars_small h]
      simp only [List.cons_append, List.nil_append, digsGo,
        digitChar_isDigit n h, if_true]
      rw [digitChar_toNat n h]
      norm_num
    · rw [natChars_split h, List.append_assoc, ih (n / 10) (by omega) acc _]
      simp only [List.singleton_append, digsGo,
        digitChar_isDigit (n % 10) (by omega), if_true,
        digitChar_toNat (n % 10) (by omega),
        List.length_append, List.length_singleton]
      rw [pow_succ, ← mul_assoc]
      generalize acc * 10 ^ (natChars (n / 10)).length = A
      exact congrArg (fun m => digsGo m rest) (by omega)

theorem parseDigs_natChars (n : Nat) (rest : List Char)
    (hrest : delimOkB rest = true) :
    parseDigs (natChars n ++ rest) = some (n, rest) := by
  obtain ⟨c, tl, hct⟩ : ∃ c tl, natChars n = c :: tl := by
    cases hn : natChars n with
    | nil => exact absurd hn (natChars_ne_nil n)
    | cons c tl => exact ⟨c, tl, rfl⟩
  have hcd : c.isDigit = true := natChars_digits n c (by rw [hct] ; simp)
  rw [hct]
  simp only [List.cons_append, parseDigs, hcd, if_true]
  rw [← List.cons_append, ← hct, digsGo_natChars n 0 rest]
  simp only [Nat.zero_mul, Nat.zero_add]
  cases rest with
  | nil => rfl
  | cons r rs =>
    simp only [delimOkB, Bool.not_eq_true'] at hrest
    simp [digsGo, hrest]


/-! ### Round-tripping the serializer through the parser: strings -/

theorem hexDigit_isHex : ∀ m, m < 16 → isHexCh (hexDigit m) = true := by
  decide

theorem hexVal_hexDigit : ∀ m, m < 16 → hexVal (hexDigit m) = m := by
  decide

theorem parseStrBody_lit {c : Char} (h1 : ¬ c = '"') (h2 : ¬ c = '\\')
    (cs : List Char) :
    parseStrBody (c :: cs) = (parseStrBody cs).map (fun pr => (c :: pr.1, pr.2)) := by
  simp only [parseStrBody, if_neg h1, if_neg h2]

theorem parseStrBody_escList : ∀ (cs rest : List Char),
    parseStrBody (escList cs ++ '"' :: rest) = some (cs, rest) := by
  intro cs
  induction cs with
  | nil =>
    intro rest
    simp [escList, parseStrBody]
  | cons c cs ih =>
    intro rest
    rw [escList, List.append_assoc]
    unfold escChar
    split_ifs with h1 h2 h3 h4 h5 h6 h7 h8
    · subst h1
      simp [parseStrBody, parseEscape, ih rest]
    · subst h2
      simp [parseStrBody, parseEscape, ih rest]
    · subst h3
      simp [parseStrBody, parseEscape, ih rest]
    · subst h4
      simp [parseStrBody, parseEscape, ih rest]
    · subst h5
      simp [parseStrBody, parseEscape, ih rest]
    · subst h6
      simp [parseStrBody, parseEscape, ih rest]
    · subst h7
      simp [parseStrBody, parseEscape, ih rest]
    · have hdiv : c.toNat / 16 < 16 := by omega
      have hmod : c.toNat % 16 < 16 := by omega
      have hx0 : isHexCh '0' = true := by decide
      have hchar : Char.ofNat (hexVal '0' * 4096 + hexVal '0' * 256 +
          hexVal (hexDigit (c.toNat / 16)) * 16 + hexVal (hexDigit (c.toNat % 16))) = c := by
        rw [hexVal_hexDigit _ hdiv, hexVal_hexDigit _ hmod]
        have h0 : hexVal '0' = 0 := by decide
        rw [h0]
        have harith : 0 * 4096 + 0 * 256 + c.toNat / 16 * 16 + c.toNat % 16 =
            c.toNat := by
          omega
        rw [harith, Char.ofNat_toNat]
      simp [parseStrBody, parseEscape, parseUEscape, hx0,
        hexDigit_isHex _ hdiv, hexDigit_isHex _ hmod, hchar, ih rest]
    · rw [List.singleton_append, parseStrBody_lit h1 h2, ih rest]
      rfl


/-! ### Round-tripping the serializer through the parser: values -/

theorem sizeV_pos : ∀ v, 1 ≤ sizeV v := by
  intro v
  cases v <;> simp [sizeV]

theorem sizeL_pos : ∀ xs, 1 ≤ sizeL xs := by
  intro xs
  cases xs with
  | nil => simp [sizeL]
  | cons x xs =>
    simp only [sizeL]
    omega

theorem sizeF_pos : ∀ fs, 1 ≤ sizeF fs := by
  intro fs
  cases fs with
  | nil => simp [sizeF]
  | cons p ps =>
    simp only [sizeF]
    omega

theorem delimOk_serTail (xs : List JVal) (rest : List Char) :
    delimOkB (serTail xs ++ ']' :: rest) = true := by
  cases xs with
  | nil => simp [serTail, delimOkB]
  | cons x xs => simp [serTail, delimOkB]

theorem delimOk_serFTail (fs : List (String × JVal)) (rest : List Char) :
    delimOkB (serFTail fs ++ '\x7d' :: rest) = true := by
  cases fs with
  | nil => simp [serFTail, delimOkB]
  | cons p ps => simp [serFTail, delimOkB]

theorem serV_head_ne_rbracket : ∀ v : JVal, ∃ c tl, serV v = c :: tl ∧ ¬ c = ']' := by
  intro v
  cases v with
  | null => exact ⟨'n', _, rfl, by decide⟩
  | bool b =>
    cases b
    · exact ⟨'f', _, rfl, by decide⟩
    · exact ⟨'t', _, rfl, by decide⟩
  | num n =>
    rw [show serV (.num n) = intChars n from rfl, intChars]
    by_cases h : n < 0
    · exact ⟨'-', _, by rw [if_pos h], by decide⟩
    · rw [if_neg h]
      obtain ⟨c, tl, hct⟩ : ∃ c tl, natChars n.toNat = c :: tl := by
        cases hn : natChars n.toNat with
        | nil => exact absurd hn (natChars_ne_nil _)
        | cons c tl => exact ⟨c, tl, rfl⟩
      have hcd : c.isDigit = true := natChars_digits _ c (by rw [hct] ; simp)
      refine ⟨c, tl, hct, ?_⟩
      intro he
      rw [he] at hcd
      exact absurd hcd (by decide)
  | str s => exact ⟨'"', _, rfl, by decide⟩
  | arr xs =>
    cases xs with
    | nil => exact ⟨'[', _, rfl, by decide⟩
    | cons x xs => exact ⟨'[', _, rfl, by decide⟩
  | obj fs =>
    cases fs with
    | nil => exact ⟨'\x7b', _, rfl, by decide⟩
    | cons p ps => exact ⟨'\x7b', _, rfl, by decide⟩

theorem parseVal_cons_digit {c : Char} (h : c.isDigit = true) (f : Nat)
    (rest : List Char) :
    parseVal (f + 1) (c :: rest) =
      match parseDigs (c :: rest) with
      | some (n, rest1) => some (.num (n : Int), rest1)
      | none => none := by
  have hne : ∀ d : Char, d.isDigit = false → ¬ c = d := by
    intro d hd he
    rw [he] at h
    rw [h] at hd
    cases hd
  rw [parseVal]
  rw [if_neg (hne 'n' (by decide)), if_neg (hne 't' (by decide)),
    if_neg (hne 'f' (by decide)), if_neg (hne '"' (by decide)),
    if_neg (hne '-' (by decide)), if_neg (hne '[' (by decide)),
    if_neg (hne '\x7b' (by decide)), if_pos h]

theorem parseFieldAnd_serField (p : String × JVal)
    (ihp : ∀ f rest, sizeV p.2 ≤ f → delimOkB rest = true →
      parseVal f (serV p.2 ++ rest) = some (p.2, rest)) :
    ∀ f rest, sizeV p.2 < f → delimOkB rest = true →
      parseFieldAnd f (serField p ++ rest) = some (p, rest) := by
  intro f rest hf hrest
  cases f with
  | zero => omega
  | succ f =>
    have hser : serField p ++ rest =
        '"' :: (escList p.1.data ++ '"' :: (':' :: (serV p.2 ++ rest))) := by
      rw [show serField p = strLit p.1 ++ ':' :: serV p.2 from by rw [serField],
        strLit]
      simp
    rw [hser, parseFieldAnd, if_pos rfl, parseStrBody_escList]
    dsimp only
    rw [if_pos rfl, ihp f rest (by omega) hrest]

theorem parseArrTail_serTail : ∀ (xs : List JVal),
    (∀ x ∈ xs, ∀ f rest, sizeV x ≤ f → delimOkB rest = true →
      parseVal f (serV x ++ rest) = some (x, rest)) →
    ∀ f rest, sizeL xs ≤ f →
      parseArrTail f (serTail xs ++ ']' :: rest) = some (xs, rest) := by
  intro xs
  induction xs with
  | nil =>
    intro _ f rest hf
    cases f with
    | zero =>
      simp [sizeL] at hf
    | succ f =>
      simp [serTail, parseArrTail]
  | cons x xs ih =>
    intro hmem f rest hf
    cases f with
    | zero =>
      have h1 := sizeL_pos (x :: xs)
      omega
    | succ f =>
      simp only [sizeL] at hf
      have hsx : sizeV x ≤ f := by omega
      have hsl : sizeL xs ≤ f := by omega
      have hser : serTail (x :: xs) ++ ']' :: rest =
          ',' :: (serV x ++ (serTail xs ++ ']' :: rest)) := by
        rw [serTail]
        simp
      rw [hser, parseArrTail, if_neg (by decide : ¬ ',' = ']'), if_pos rfl,
        hmem x (by simp) f _ hsx (delimOk_serTail xs rest)]
      dsimp only
      rw [ih (fun y hy => hmem y (by simp [hy])) f rest hsl]

theorem parseObjTail_serFTail : ∀ (fs : List (String × JVal)),
    (∀ p ∈ fs, ∀ f rest, sizeV p.2 ≤ f → delimOkB rest = true →
      parseVal f (serV p.2 ++ rest) = some (p.2, rest)) →
    ∀ f rest, sizeF fs ≤ f →
      parseObjTail f (serFTail fs ++ '\x7d' :: rest) = some (fs, rest) := by
  intro fs
  induction fs with
  | nil =>
    intro _ f rest hf
    cases f with
    | zero =>
      simp [sizeF] at hf
    | succ f =>
      simp [serFTail, parseObjTail]
  | cons p ps ih =>
    intro hmem f rest hf
    cases f with
    | zero =>
      have h1 := sizeF_pos (p :: ps)
      omega
    | succ f =>
      simp only [sizeF] at hf
      have hsp : sizeV p.2 < f := by
        have := sizeF_pos ps
        omega
      have hsl : sizeF ps ≤ f := by
        have := sizeV_pos p.2
        omega
      have hser : serFTail (p :: ps) ++ '\x7d' :: rest =
          ',' :: (serField p ++ (serFTail ps ++ '\x7d' :: rest)) := by
        rw [serFTail]
        simp
      rw [hser, parseObjTail, if_neg (by decide : ¬ ',' = '\x7d'), if_pos rfl,
        parseFieldAnd_serField p (hmem p (by simp)) f _ hsp
          (delimOk_serFTail ps rest)]
      dsimp only
      rw [ih (fun q hq => hmem q (by simp [hq])) f rest hsl]

/-- Parsing inverts serialization: the parser recovers exactly the
serialized value in front of any non-digit-initial suffix. -/
theorem parseVal_serV : ∀ v : JVal, ∀ f rest, sizeV v ≤ f →
    delimOkB rest = true → parseVal f (serV v ++ rest) = some (v, rest) := by
  intro v
  induction v using JVal.indOn with
  | hnull =>
    intro f rest hf _
    cases f with
    | zero => simp [sizeV] at hf
    | succ f => simp [serV, parseVal, expectLit]
  | hbool b =>
    intro f rest hf _
    cases f with
    | zero =>
      have := sizeV_pos (.bool b)
      omega
    | succ f =>
      cases b
      · simp [serV, parseVal, expectLit]
      · simp [serV, parseVal, expectLit]
  | hnum n =>
    intro f rest hf hrest
    cases f with
    | zero =>
      have := sizeV_pos (.num n)
      omega
    | succ f =>
      rw [show serV (.num n) = intChars n from rfl, intChars]
      by_cases h : n < 0
      · rw [if_pos h]
        simp only [List.cons_append]
        rw [parseVal, if_neg (by decide : ¬ '-' = 'n'),
          if_neg (by decide : ¬ '-' = 't'), if_neg (by decide : ¬ '-' = 'f'),
          if_neg (by decide : ¬ '-' = '"'), if_pos rfl,
          parseDigs_natChars n.natAbs rest hrest]
        dsimp only
        have heq : (-(n.natAbs : Int)) = n := by omega
        rw [heq]
      · rw [if_neg h]
        obtain ⟨c, tl, hct⟩ : ∃ c tl, natChars n.toNat = c :: tl := by
          cases hn : natChars n.toNat with
          | nil => exact absurd hn (natChars_ne_nil _)
          | cons c tl => exact ⟨c, tl, rfl⟩
        have hcd : c.isDigit = true := natChars_digits _ c (by rw [hct] ; simp)
        rw [hct, List.cons_append, parseVal_cons_digit hcd f,
          ← List.cons_append, ← hct, parseDigs_natChars n.toNat rest hrest]
        dsimp only
        have heq : ((n.toNat : Nat) : Int) = n := by omega
        rw [heq]
  | hstr s =>
    intro f rest hf _
    cases f with
    | zero =>
      have := sizeV_pos (.str s)
      omega
    | succ f =>
      have hser : serV (.str s) ++ rest =
          '"' :: (escList s.data ++ '"' :: rest) := by
        rw [show serV (.str s) = strLit s from rfl, strLit]
        simp
      rw [hser, parseVal, if_neg (by decide : ¬ '"' = 'n'),
        if_neg (by decide : ¬ '"' = 't'), if_neg (by decide : ¬ '"' = 'f'),
        if_pos rfl, parseStrBody_escList]
      rfl
  | harr xs ihm =>
    intro f rest hf hrest
    cases f with
    | zero =>
      have := sizeV_pos (.arr xs)
      omega
    | succ f =>
      cases xs with
      | nil => simp [serV, parseVal, parseArrStart]
      | cons x xs =>
        simp only [sizeV, sizeL] at hf
        have hsx : sizeV x ≤ f := by omega
        have hsl : sizeL xs ≤ f := by omega
        have hser : serV (.arr (x :: xs)) ++ rest =
            '[' :: (serV x ++ (serTail xs ++ ']' :: rest)) := by
          rw [show serV (.arr (x :: xs)) = '[' :: (serV x ++ serTail xs ++ [']'])
            from rfl]
          simp
        rw [hser, parseVal, if_neg (by decide : ¬ '[' = 'n'),
          if_neg (by decide : ¬ '[' = 't'), if_neg (by decide : ¬ '[' = 'f'),
          if_neg (by decide : ¬ '[' = '"'), if_neg (by decide : ¬ '[' = '-'),
          if_pos rfl]
        obtain ⟨c, tl, hct, hcne⟩ := serV_head_ne_rbracket x
        rw [show serV x ++ (serTail xs ++ ']' :: rest) =
            c :: (tl ++ (serTail xs ++ ']' :: rest)) from by rw [hct] ; simp]
        rw [parseArrStart, if_neg hcne]
        rw [show c :: (tl ++ (serTail xs ++ ']' :: rest)) =
            serV x ++ (serTail xs ++ ']' :: rest) from by rw [hct] ; simp]
        rw [ihm x (by simp) f _ hsx (delimOk_serTail xs rest)]
        dsimp only
        rw [parseArrTail_serTail xs (fun y hy => ihm y (by simp [hy])) f rest hsl]
  | hobj fs ihm =>
    intro f rest hf hrest
    cases f with
    | zero =>
      have := sizeV_pos (.obj fs)
      omega
    | succ f =>
      cases fs with
      | nil => simp [serV, parseVal, parseObjStart]
      | cons p ps =>
        simp only [sizeV, sizeF] at hf
        have hsp : sizeV p.2 < f := by
          have := sizeF_pos ps
          omega
        have hsl : sizeF ps ≤ f := by
          have := sizeV_pos p.2
          omega
        have hser : serV (.obj (p :: ps)) ++ rest =
            '\x7b' :: (serField p ++ (serFTail ps ++ '\x7d' :: rest)) := by
          rw [show serV (.obj (p :: ps)) =
              '\x7b' :: (serField p ++ serFTail ps ++ ['\x7d']) from rfl]
          simp
        rw [hser, parseVal, if_neg (by decide : ¬ '\x7b' = 'n'),
          if_neg (by decide : ¬ '\x7b' = 't'), if_neg (by decide : ¬ '\x7b' = 'f'),
          if_neg (by decide : ¬ '\x7b' = '"'), if_neg (by decide : ¬ '\x7b' = '-'),
          if_neg (by decide : ¬ '\x7b' = '['), if_pos rfl]
        have hserf : serField p ++ (serFTail ps ++ '\x7d' :: rest) =
            '"' :: (escList p.1.data ++ '"' ::
              (':' :: (serV p.2 ++ (serFTail ps ++ '\x7d' :: rest)))) := by
          rw [show serField p = strLit p.1 ++ ':' :: serV p.2 from by
            rw [serField], strLit]
          simp
        rw [hserf, parseObjStart, if_neg (by decide : ¬ '"' = '\x7d'), ← hserf]
        rw [parseFieldAnd_serField p (ihm p (by simp)) f _ hsp
          (delimOk_serFTail ps rest)]
        dsimp only
        rw [parseObjTail_serFTail ps (fun q hq => ihm q (by simp [hq])) f rest hsl]


/-- The serializer is injective. -/
theorem serV_inj {v w : JVal} (h : serV v = serV w) : v = w := by
  have h1 := parseVal_serV v (max (sizeV v) (sizeV w)) []
    (le_max_left _ _) rfl
  have h2 := parseVal_serV w (max (sizeV v) (sizeV w)) []
    (le_max_right _ _) rfl
  rw [List.append_nil] at h1 h2
  rw [h, h2] at h1
  simpa using h1.symm

theorem jsonStringify_inj {v w : JVal} (h : jsonStringify v = jsonStringify w) :
    v = w := by
  apply serV_inj
  have := congrArg String.data h
  simpa [jsonStringify] using this

/-- The canonical serializer identifies exactly the pairs of well-formed
values that carry the same data up to object-key insertion order. -/
theorem stableSerialize_eq_iff_sameData {v w : JVal}
    (hv : wfB v = true) (hw : wfB w = true) :
    stableSerialize v = stableSerialize w ↔ SameData v w := by
  constructor
  · intro h
    exact sameData_of_sortKeys_eq (jsonStringify_inj h)
  · intro h
    rw [stableSerialize, stableSerialize, sortKeys_eq_of_sameData v w hv hw h]


/-! ### Loading serialized JSONL files -/

theorem digit_not_ws {c : Char} (h : c.isDigit = true) : isJsWs c = false := by
  have hne : ∀ d : Char, d.isDigit = false → ¬ c = d := by
    intro d hd he
    rw [he] at h
    rw [h] at hd
    cases hd
  simp [isJsWs, hne ' ' (by decide), hne '\t' (by decide), hne '\n' (by decide),
    hne '\x0d' (by decide), hne '\x0b' (by decide), hne '\x0c' (by decide),
    hne '\u00a0' (by decide)]

theorem digit_ne_nl {c : Char} (h : c.isDigit = true) : ¬ c = '\n' := by
  intro he
  rw [he] at h
  exact absurd h (by decide)

theorem hexDigit_ne_nl : ∀ m, ¬ hexDigit m = '\n' := by
  intro m
  unfold hexDigit
  by_cases h : m < 16
  · interval_cases m <;> decide
  · rw [List.getD_eq_default _ _ (by simp ; omega)]
    decide

theorem escChar_no_nl : ∀ c, ∀ d ∈ escChar c, ¬ d = '\n' := by
  intro c d hd
  unfold escChar at hd
  split_ifs at hd with h1 h2 h3 h4 h5 h6 h7 h8
  · fin_cases hd <;> decide
  · fin_cases hd <;> decide
  · fin_cases hd <;> decide
  · fin_cases hd <;> decide
  · fin_cases hd <;> decide
  · fin_cases hd <;> decide
  · fin_cases hd <;> decide
  · fin_cases hd
    · decide
    · decide
    · decide
    · decide
    · exact hexDigit_ne_nl _
    · exact hexDigit_ne_nl _
  · rw [List.mem_singleton] at hd
    subst hd
    intro he
    rw [he] at h8
    exact absurd (by decide : ('\n').toNat < 32) h8

theorem escList_no_nl : ∀ cs, ∀ d ∈ escList cs, ¬ d = '\n' := by
  intro cs
  induction cs with
  | nil =>
    intro d hd
    cases hd
  | cons c cs ih =>
    intro d hd
    rw [escList, List.mem_append] at hd
    rcases hd with hd | hd
    · exact escChar_no_nl c d hd
    · exact ih d hd

theorem natChars_no_nl : ∀ n, ∀ d ∈ natChars n, ¬ d = '\n' :=
  fun n d hd => digit_ne_nl (natChars_digits n d hd)

theorem serField_no_nl (q : String × JVal)
    (hq : ∀ e ∈ serV q.2, ¬ e = '\n') :
    ∀ e ∈ serField q, ¬ e = '\n' := by
  intro e he
  rw [show serField q = strLit q.1 ++ ':' :: serV q.2 from by rw [serField],
    strLit] at he
  simp only [List.mem_append, List.mem_cons, List.not_mem_nil, or_false] at he
  rcases he with (he | he | he) | he | he
  · subst he
    decide
  · exact escList_no_nl _ e he
  · subst he
    decide
  · subst he
    decide
  · exact hq e he

theorem serTail_no_nl (xs : List JVal)
    (h : ∀ x ∈ xs, ∀ d ∈ serV x, ¬ d = '\n') :
    ∀ d ∈ serTail xs, ¬ d = '\n' := by
  induction xs with
  | nil =>
    intro d hd
    cases hd
  | cons y ys ih =>
    intro d hd
    rw [serTail, List.mem_cons, List.mem_append] at hd
    rcases hd with hd | hd | hd
    · subst hd
      decide
    · exact h y (by simp) d hd
    · exact ih (fun z hz => h z (List.mem_cons_of_mem _ hz)) d hd

theorem serFTail_no_nl (fs : List (String × JVal))
    (h : ∀ p ∈ fs, ∀ d ∈ serV p.2, ¬ d = '\n') :
    ∀ d ∈ serFTail fs, ¬ d = '\n' := by
  induction fs with
  | nil =>
    intro d hd
    cases hd
  | cons q qs ih =>
    intro d hd
    rw [serFTail, List.mem_cons, List.mem_append] at hd
    rcases hd with hd | hd | hd
    · subst hd
      decide
    · exact serField_no_nl q (h q (by simp)) d hd
    · exact ih (fun z hz => h z (List.mem_cons_of_mem _ hz)) d hd

theorem serV_no_nl : ∀ v : JVal, ∀ d ∈ serV v, ¬ d = '\n' := by
  intro v
  induction v using JVal.indOn with
  | hnull =>
    intro d hd
    rw [show serV .null = ['n', 'u', 'l', 'l'] from rfl] at hd
    fin_cases hd <;> decide
  | hbool b =>
    intro d hd
    cases b
    · rw [show serV (.bool false) = ['f', 'a', 'l', 's', 'e'] from rfl] at hd
      fin_cases hd <;> decide
    · rw [show serV (.bool true) = ['t', 'r', 'u', 'e'] from rfl] at hd
      fin_cases hd <;> decide
  | hnum n =>
    intro d hd
    rw [show serV (.num n) = intChars n from rfl, intChars] at hd
    by_cases h : n < 0
    · rw [if_pos h, List.mem_cons] at hd
      rcases hd with hd | hd
      · subst hd
        decide
      · exact natChars_no_nl _ d hd
    · rw [if_neg h] at hd
      exact natChars_no_nl _ d hd
  | hstr s =>
    intro d hd
    rw [show serV (.str s) = strLit s from rfl, strLit, List.mem_cons,
      List.mem_append] at hd
    rcases hd with hd | hd | hd
    · subst hd
      decide
    · exact escList_no_nl _ d hd
    · rw [List.mem_singleton] at hd
      subst hd
      decide
  | harr xs ih =>
    intro d hd
    cases xs with
    | nil =>
      rw [show serV (.arr []) = ['[', ']'] from rfl] at hd
      fin_cases hd <;> decide
    | cons x xs =>
      rw [show serV (.arr (x :: xs)) = '[' :: (serV x ++ serTail xs ++ [']'])
          from rfl, List.mem_cons, List.mem_append, List.mem_append] at hd
      rcases hd with hd | (hd | hd) | hd
      · subst hd
        decide
      · exact ih x (by simp) d hd
      · exact serTail_no_nl xs (fun z hz => ih z (by simp [hz])) d hd
      · rw [List.mem_singleton] at hd
        subst hd
        decide
  | hobj fs ih =>
    intro d hd
    cases fs with
    | nil =>
      rw [show serV (.obj []) = ['\x7b', '\x7d'] from rfl] at hd
      fin_cases hd <;> decide
    | cons p ps =>
      rw [show serV (.obj (p :: ps)) =
          '\x7b' :: (serField p ++ serFTail ps ++ ['\x7d']) from rfl,
        List.mem_cons, List.mem_append, List.mem_append] at hd
      rcases hd with hd | (hd | hd) | hd
      · subst hd
        decide
      · exact serField_no_nl p (ih p (by simp)) d hd
      · exact serFTail_no_nl ps (fun z hz => ih z (by simp [hz])) d hd
      · rw [List.mem_singleton] at hd
        subst hd
        decide


theorem serV_head_not_ws : ∀ v : JVal, ∃ c tl, serV v = c :: tl ∧ isJsWs c = false := by
  intro v
  cases v with
  | null => exact ⟨'n', _, rfl, by decide⟩
  | bool b =>
    cases b
    · exact ⟨'f', _, rfl, by decide⟩
    · exact ⟨'t', _, rfl, by decide⟩
  | num n =>
    rw [show serV (.num n) = intChars n from rfl, intChars]
    by_cases h : n < 0
    · exact ⟨'-', _, by rw [if_pos h], by decide⟩
    · rw [if_neg h]
      obtain ⟨c, tl, hct⟩ : ∃ c tl, natChars n.toNat = c :: tl := by
        cases hn : natChars n.toNat with
        | nil => exact absurd hn (natChars_ne_nil _)
        | cons c tl => exact ⟨c, tl, rfl⟩
      exact ⟨c, tl, hct,
        digit_not_ws (natChars_digits _ c (by rw [hct] ; simp))⟩
  | str s => exact ⟨'"', _, rfl, by decide⟩
  | arr xs =>
    cases xs with
    | nil => exact ⟨'[', _, rfl, by decide⟩
    | cons x xs => exact ⟨'[', _, rfl, by decide⟩
  | obj fs =>
    cases fs with
    | nil => exact ⟨'\x7b', _, rfl, by decide⟩
    | cons p ps => exact ⟨'\x7b', _, rfl, by decide⟩

theorem natChars_concat (m : Nat) :
    ∃ pre c, natChars m = pre ++ [c] ∧ isJsWs c = false := by
  rcases List.eq_nil_or_concat (natChars m) with h | ⟨pre, c, h⟩
  · exact absurd h (natChars_ne_nil m)
  · rw [List.concat_eq_append] at h
    exact ⟨pre, c, h,
      digit_not_ws (natChars_digits m c (by rw [h] ; simp))⟩

theorem serV_last_not_ws : ∀ v : JVal,
    ∃ pre c, serV v = pre ++ [c] ∧ isJsWs c = false := by
  intro v
  cases v with
  | null => exact ⟨['n', 'u', 'l'], 'l', rfl, by decide⟩
  | bool b =>
    cases b
    · exact ⟨['f', 'a', 'l', 's'], 'e', rfl, by decide⟩
    · exact ⟨['t', 'r', 'u'], 'e', rfl, by decide⟩
  | num n =>
    rw [show serV (.num n) = intChars n from rfl, intChars]
    by_cases h : n < 0
    · obtain ⟨pre, c, hp, hc⟩ := natChars_concat n.natAbs
      exact ⟨'-' :: pre, c, by rw [if_pos h, hp] ; rfl, hc⟩
    · obtain ⟨pre, c, hp, hc⟩ := natChars_concat n.toNat
      exact ⟨pre, c, by rw [if_neg h, hp], hc⟩
  | str s =>
    exact ⟨'"' :: escList s.data, '"',
      by rw [show serV (.str s) = strLit s from rfl, strLit] ; simp, by decide⟩
  | arr xs =>
    cases xs with
    | nil => exact ⟨['['], ']', rfl, by decide⟩
    | cons x xs =>
      exact ⟨'[' :: (serV x ++ serTail xs), ']',
        by rw [show serV (.arr (x :: xs)) =
            '[' :: (serV x ++ serTail xs ++ [']']) from rfl] ; simp, by decide⟩
  | obj fs =>
    cases fs with
    | nil => exact ⟨['\x7b'], '\x7d', rfl, by decide⟩
    | cons p ps =>
      exact ⟨'\x7b' :: (serField p ++ serFTail ps), '\x7d',
        by rw [show serV (.obj (p :: ps)) =
            '\x7b' :: (serField p ++ serFTail ps ++ ['\x7d']) from rfl] ; simp,
        by decide⟩

theorem trimChars_eq_self {l : List Char}
    (hhead : ∃ c tl, l = c :: tl ∧ isJsWs c = false)
    (hlast : ∃ pre c, l = pre ++ [c] ∧ isJsWs c = false) :
    trimChars l = l := by
  obtain ⟨c, tl, hct, hc⟩ := hhead
  obtain ⟨pre, d, hpd, hd2⟩ := hlast
  unfold trimChars
  rw [hct, List.dropWhile_cons]
  simp only [hc, Bool.false_eq_true, if_false]
  rw [← hct, hpd, List.reverse_append]
  simp only [List.reverse_cons, List.reverse_nil, List.nil_append,
    List.singleton_append, List.dropWhile_cons]
  simp only [hd2, Bool.false_eq_true, if_false]
  simp

theorem trimChars_of_all_ws {l : List Char} (h : ∀ c ∈ l, isJsWs c = true) :
    trimChars l = [] := by
  unfold trimChars
  rw [List.dropWhile_eq_nil_iff.2 (fun c hc => h c hc)]
  simp

theorem splitOnNl_ne_nil : ∀ cs, splitOnNl cs ≠ [] := by
  intro cs
  cases cs with
  | nil => simp [splitOnNl]
  | cons c rest =>
    rw [splitOnNl]
    by_cases h : c = '\n'
    · simp [h]
    · rw [if_neg h]
      cases hsp : splitOnNl rest with
      | nil => simp
      | cons l ls => simp

theorem splitOnNl_append {a rest : List Char} (ha : ∀ c ∈ a, ¬ c = '\n') :
    splitOnNl (a ++ '\n' :: rest) = a :: splitOnNl rest := by
  induction a with
  | nil =>
    simp [splitOnNl]
  | cons c a ih =>
    rw [List.cons_append, splitOnNl, if_neg (ha c (by simp)),
      ih (fun d hd => ha d (by simp [hd]))]

theorem splitOnNl_mem_ws : ∀ (cs : List Char), (∀ c ∈ cs, isJsWs c = true) →
    ∀ piece ∈ splitOnNl cs, ∀ c ∈ piece, isJsWs c = true := by
  intro cs
  induction cs with
  | nil =>
    intro _ piece hp c hc
    rw [show splitOnNl [] = [[]] from rfl, List.mem_singleton] at hp
    subst hp
    cases hc
  | cons a rest ih =>
    intro h piece hp
    rw [splitOnNl] at hp
    by_cases hc : a = '\n'
    · rw [if_pos hc, List.mem_cons] at hp
      rcases hp with hp | hp
      · subst hp
        intro d hd
        cases hd
      · exact ih (fun d hd => h d (by simp [hd])) piece hp
    · rw [if_neg hc] at hp
      cases hsp : splitOnNl rest with
      | nil => exact absurd hsp (splitOnNl_ne_nil rest)
      | cons l ls =>
        rw [hsp, List.mem_cons] at hp
        rcases hp with hp | hp
        · subst hp
          intro d hd
          rw [List.mem_cons] at hd
          rcases hd with hd | hd
          · subst hd
            exact h _ (by simp)
          · exact ih (fun e he => h e (by simp [he])) l
              (by rw [hsp] ; simp) d hd
        · exact ih (fun e he => h e (by simp [he])) piece
            (by rw [hsp] ; simp [hp])

theorem sizeL_le_serTail : ∀ xs : List JVal,
    (∀ x ∈ xs, sizeV x ≤ 2 * (serV x).length) →
    sizeL xs ≤ 2 * (serTail xs).length + 1 := by
  intro xs
  induction xs with
  | nil =>
    intro _
    simp [sizeL, serTail]
  | cons x xs ih =>
    intro h
    have h1 := h x (by simp)
    have h2 := ih (fun y hy => h y (by simp [hy]))
    rw [sizeL, serTail]
    simp only [List.length_cons, List.length_append]
    omega

theorem sizeF_le_serFTail : ∀ fs : List (String × JVal),
    (∀ p ∈ fs, sizeV p.2 ≤ 2 * (serV p.2).length) →
    sizeF fs ≤ 2 * (serFTail fs).length + 1 := by
  intro fs
  induction fs with
  | nil =>
    intro _
    simp [sizeF, serFTail]
  | cons p ps ih =>
    intro h
    have h1 := h p (by simp)
    have h2 := ih (fun q hq => h q (by simp [hq]))
    have h3 : (serField p).length = (strLit p.1).length + 1 + (serV p.2).length := by
      rw [show serField p = strLit p.1 ++ ':' :: serV p.2 from by rw [serField]]
      simp
      omega
    rw [sizeF, serFTail]
    simp only [List.length_cons, List.length_append]
    omega

theorem sizeV_le_serV : ∀ v : JVal, sizeV v ≤ 2 * (serV v).length := by
  intro v
  induction v using JVal.indOn with
  | hnull => decide
  | hbool b => cases b <;> decide
  | hnum n =>
    have h1 : 1 ≤ (serV (.num n)).length := by
      obtain ⟨c, tl, hct, _⟩ := serV_head_not_ws (.num n)
      rw [hct]
      simp
    rw [show sizeV (.num n) = 1 from rfl]
    omega
  | hstr s =>
    rw [show sizeV (.str s) = 1 from rfl,
      show serV (.str s) = strLit s from rfl, strLit]
    simp
    omega
  | harr xs ih =>
    cases xs with
    | nil => decide
    | cons x xs =>
      have h1 := ih x (by simp)
      have h2 := sizeL_le_serTail xs (fun y hy => ih y (by simp [hy]))
      rw [show sizeV (.arr (x :: xs)) = 1 + sizeL (x :: xs) from rfl, sizeL,
        show serV (.arr (x :: xs)) = '[' :: (serV x ++ serTail xs ++ [']'])
          from rfl]
      simp only [List.length_cons, List.length_append]
      omega
  | hobj fs ih =>
    cases fs with
    | nil => decide
    | cons p ps =>
      have h1 := ih p (by simp)
      have h2 := sizeF_le_serFTail ps (fun q hq => ih q (by simp [hq]))
      have h3 : (serField p).length = (strLit p.1).length + 1 + (serV p.2).length := by
        rw [show serField p = strLit p.1 ++ ':' :: serV p.2 from by rw [serField]]
        simp
        omega
      rw [show sizeV (.obj (p :: ps)) = 1 + sizeF (p :: ps) from rfl, sizeF,
        show serV (.obj (p :: ps)) =
          '\x7b' :: (serField p ++ serFTail ps ++ ['\x7d']) from rfl]
      simp only [List.length_cons, List.length_append]
      omega

/-- `JSON.parse` recovers a serialized record from its own line. -/
theorem parseJsonLine_serV (v : JVal) : parseJsonLine (serV v) = .ok v := by
  unfold parseJsonLine
  have h := parseVal_serV v (2 * (serV v).length + 2) []
    (by have := sizeV_le_serV v ; omega) rfl
  rw [List.append_nil] at h
  rw [h]

/-- Loading a file of serialized records followed by whitespace-only
trailing residue recovers exactly the records, in file order. -/
theorem readJsonl_jsonlOf : ∀ (vs : List JVal) (ws : List Char),
    (∀ c ∈ ws, isJsWs c = true) →
    readJsonlEntries (some (jsonlOf vs ++ ws)) = .ok vs := by
  intro vs
  induction vs with
  | nil =>
    intro ws hws
    rw [readJsonlEntries, show jsonlOf [] ++ ws = ws from by rw [jsonlOf] ; simp]
    have hlines : ((splitOnNl ws).map trimChars).filter
        (fun l => l.length > 0) = [] := by
      rw [List.filter_eq_nil_iff]
      intro l hl
      rw [List.mem_map] at hl
      obtain ⟨piece, hp, hpe⟩ := hl
      rw [← hpe, trimChars_of_all_ws (splitOnNl_mem_ws ws hws piece hp)]
      simp
    rw [hlines]
    rfl
  | cons v vs ih =>
    intro ws hws
    have hstep : jsonlOf (v :: vs) ++ ws =
        serV v ++ '\n' :: (jsonlOf vs ++ ws) := by
      rw [jsonlOf]
      simp
    rw [readJsonlEntries, hstep, splitOnNl_append (serV_no_nl v)]
    rw [List.map_cons, trimChars_eq_self (serV_head_not_ws v) (serV_last_not_ws v)]
    obtain ⟨c, tl, hct, _⟩ := serV_head_not_ws v
    rw [List.filter_cons_of_pos (by rw [hct] ; simp)]
    have hrest := ih ws hws
    rw [readJsonlEntries] at hrest
    rw [List.foldr_cons, hrest, parseJsonLine_serV v]

/-! ### Reading fields back from persisted entry objects -/

theorem getField_entry_call_name (e : CassetteEntry) :
    getField (entryToJVal e) "call_name" = some (.str e.call_name) := by
  rcases e with ⟨cn, rh, ra, lm, ap, res, err, met⟩
  rcases ap <;> rcases res <;> rcases err <;> rcases met <;>
    simp [entryToJVal, getField]

theorem getField_entry_request_hash (e : CassetteEntry) :
    getField (entryToJVal e) "request_hash" = some (.str e.request_hash) := by
  rcases e with ⟨cn, rh, ra, lm, ap, res, err, met⟩
  rcases ap <;> rcases res <;> rcases err <;> rcases met <;>
    simp [entryToJVal, getField]

theorem getField_entry_result (e : CassetteEntry) :
    getField (entryToJVal e) "result" = e.result := by
  rcases e with ⟨cn, rh, ra, lm, ap, res, err, met⟩
  rcases ap <;> rcases res <;> rcases err <;> rcases met <;>
    simp [entryToJVal, getField]

theorem getField_entry_error (e : CassetteEntry) :
    getField (entryToJVal e) "error" = e.error.map errToJVal := by
  rcases e with ⟨cn, rh, ra, lm, ap, res, err, met⟩
  rcases ap <;> rcases res <;> rcases err <;> rcases met <;>
    simp [entryToJVal, getField]

theorem getField_entry_meta (e : CassetteEntry) :
    getField (entryToJVal e) "meta" = e.meta := by
  rcases e with ⟨cn, rh, ra, lm, ap, res, err, met⟩
  rcases ap <;> rcases res <;> rcases err <;> rcases met <;>
    simp [entryToJVal, getField]

theorem loadKeyOf_entry (e : CassetteEntry) :
    loadKeyOf (entryToJVal e) = e.call_name ++ "::" ++ e.request_hash := by
  rw [loadKeyOf, getField_entry_call_name, getField_entry_request_hash]
  simp [jsToString]

theorem getField_err_name (er : CassetteRecordedError) :
    getField (errToJVal er) "name" = some (.str er.name) := by
  rcases er with ⟨n, m, stk⟩
  rcases stk <;> simp [errToJVal, getField]

theorem getField_err_message (er : CassetteRecordedError) :
    getField (errToJVal er) "message" = some (.str er.message) := by
  rcases er with ⟨n, m, stk⟩
  rcases stk <;> simp [errToJVal, getField]

theorem getField_err_stack (er : CassetteRecordedError) :
    getField (errToJVal er) "stack" = er.stack.map (fun s => JVal.str s) := by
  rcases er with ⟨n, m, stk⟩
  rcases stk <;> simp [errToJVal, getField]

theorem jsTruthy_errToJVal (er : CassetteRecordedError) :
    jsTruthy (errToJVal er) = true := by
  rcases er with ⟨n, m, stk⟩
  rcases stk <;> rfl

/-! ### The default redactor on persisted entries and string leaves -/

theorem redact_entryToJVal (e : CassetteEntry) :
    defaultRedactValue (entryToJVal e) = entryToJVal (redactEntry e) := by
  rcases e with ⟨cn, rh, ra, lm, ap, res, err, met⟩
  rcases ap <;> rcases res <;>
    rcases err with _ | ⟨n, m, stk⟩ <;> rcases met <;>
    (try rcases stk) <;>
    simp [entryToJVal, redactEntry, defaultRedactValue, redactFs, errToJVal]

theorem stringLeaves_redact : ∀ v, stringLeaves (defaultRedactValue v) =
    (stringLeaves v).map redactString := by
  intro v
  induction v using JVal.indOn with
  | hnull => rfl
  | hbool b => rfl
  | hnum n => rfl
  | hstr s => rfl
  | harr xs ih =>
    simp only [defaultRedactValue, stringLeaves]
    induction xs with
    | nil => rfl
    | cons x xs ihl =>
      simp only [redactLs, stringLeavesL, List.map_append]
      rw [ih x (by simp), ihl (fun y hy => ih y (by simp [hy]))]
  | hobj fs ih =>
    simp only [defaultRedactValue, stringLeaves]
    induction fs with
    | nil => rfl
    | cons p ps ihl =>
      simp only [redactFs, stringLeavesF, List.map_append]
      rw [ih p (by simp), ihl (fun q hq => ih q (by simp [hq]))]

/-! ### Mode-level unfoldings of a wrapped call -/

theorem wrappedCall_replay_indep (sess : Session) (hmode : sess.mode = .replay)
    (cn : String) (rf rf2 : List JVal → Except JSError (Option JVal))
    (opts : WrapOptions) (args : List JVal) (tS tE tS2 tE2 : Nat)
    (f1 f2 g1 g2 : Option JSError) :
    wrappedCall sess cn rf opts args tS tE f1 f2 =
      wrappedCall sess cn rf2 opts args tS2 tE2 g1 g2 := by
  simp only [wrappedCall, hmode, reduceIte]


theorem wrappedCall_record_eq (sess : Session) (hmode : sess.mode = .record)
    (cn : String) (rf : List JVal → Except JSError (Option JVal))
    (opts : WrapOptions) (args : List JVal) (tS tE : Nat)
    (f1 f2 : Option JSError) :
    wrappedCall sess cn rf opts args tS tE f1 f2 =
      (let bri := opts.buildRequestIdentity.getD (fun a => .arr a)
       let bap := opts.buildArgsPreview.getD (fun a => some (.arr a))
       let bm := opts.buildMeta.getD (fun _ => none)
       let requestHash := sha256Hex (stableSerialize (bri args))
       match rf args with
       | .ok r =>
         match f1 with
         | some e => recordCatch sess cn requestHash (bap args) tS tE e f2
         | none =>
           (.ok r, { sess with
              file := sess.file ++ appendEntryLine sess
                { call_name := cn
                  request_hash := requestHash
                  recorded_at_ms := tE
                  latency_ms := tE - tS
                  args_preview := bap args
                  result := r
                  error := none
                  meta := bm r }
              sessionStats := { sess.sessionStats with
                calls_recorded := sess.sessionStats.calls_recorded + 1
                total_tokens_recorded := sess.sessionStats.total_tokens_recorded +
                  getTotalTokensFromMeta (bm r) } })
       | .error e => recordCatch sess cn requestHash (bap args) tS tE e f1) := by
  simp only [wrappedCall, hmode, reduceCtorEq, reduceIte]

theorem recordCatch_hits (sess : Session) (cn rh : String) (ap : Option JVal)
    (tS tE : Nat) (ue : JSError) (fs : Option JSError) :
    ((recordCatch sess cn rh ap tS tE ue fs).2).sessionStats.replay_hits =
      sess.sessionStats.replay_hits := by
  rcases fs <;> simp [recordCatch]

theorem recordCatch_misses (sess : Session) (cn rh : String) (ap : Option JVal)
    (tS tE : Nat) (ue : JSError) (fs : Option JSError) :
    ((recordCatch sess cn rh ap tS tE ue fs).2).sessionStats.replay_misses =
      sess.sessionStats.replay_misses := by
  rcases fs <;> simp [recordCatch]

theorem recordCatch_replayed (sess : Session) (cn rh : String) (ap : Option JVal)
    (tS tE : Nat) (ue : JSError) (fs : Option JSError) :
    ((recordCatch sess cn rh ap tS tE ue fs).2).sessionStats.calls_replayed =
      sess.sessionStats.calls_replayed := by
  rcases fs <;> simp [recordCatch]

theorem statsInv_step (sess : Session) (c : CallSpec)
    (h : sess.sessionStats.replay_hits + sess.sessionStats.replay_misses =
      sess.sessionStats.calls_replayed) :
    ((wrappedCall sess c.callName c.realFunction c.opts c.args c.tStart c.tEnd
        c.fsFail1 c.fsFail2).2).sessionStats.replay_hits +
      ((wrappedCall sess c.callName c.realFunction c.opts c.args c.tStart c.tEnd
        c.fsFail1 c.fsFail2).2).sessionStats.replay_misses =
      ((wrappedCall sess c.callName c.realFunction c.opts c.args c.tStart c.tEnd
        c.fsFail1 c.fsFail2).2).sessionStats.calls_replayed := by
  simp only [wrappedCall]
  split_ifs with hm hp
  · rcases hq : mapGet sess.entriesByLookupKeyQueue
        (c.callName ++ "::" ++ sha256Hex (stableSerialize
          (c.opts.buildRequestIdentity.getD (fun a => JVal.arr a) c.args)))
      with _ | ⟨_ | ⟨e, rest⟩⟩
    · simp [hq]
      omega
    · simp [hq]
      omega
    · rcases hge : getField e "error" with _ | errVal
      · simp [hq, hge]
        omega
      · by_cases ht : jsTruthy errVal = true
        · simp [hq, hge, ht]
          omega
        · simp [hq, hge, ht]
          omega
  · simpa using h
  · rcases hr : c.realFunction c.args with er | r
    · rcases hf : c.fsFail1 with _ | e1
      · simp only [hr]
        simp [recordCatch]
        omega
      · simp only [hr, hf]
        simp [recordCatch]
        omega
    · rcases hf : c.fsFail1 with _ | e1
      · simpa [hr, hf] using h
      · rcases hf2 : c.fsFail2 with _ | e2
        · simp only [hr, hf, hf2]
          simp [recordCatch]
          omega
        · simp only [hr, hf, hf2]
          simp [recordCatch]
          omega

theorem wrappedCall_replay_miss (sess : Session) (hmode : sess.mode = .replay)
    (cn : String) (rf : List JVal → Except JSError (Option JVal))
    (opts : WrapOptions) (args : List JVal) (tS tE : Nat)
    (f1 f2 : Option JSError)
    (hempty : (mapGet sess.entriesByLookupKeyQueue
        (cn ++ "::" ++ sha256Hex (stableSerialize
          ((opts.buildRequestIdentity.getD (fun a => JVal.arr a)) args)))).getD [] = []) :
    wrappedCall sess cn rf opts args tS tE f1 f2 =
      (.error (.errorObj "Error"
          ("Cassette miss: no entry for " ++
            (cn ++ "::" ++ sha256Hex (stableSerialize
              ((opts.buildRequestIdentity.getD (fun a => JVal.arr a)) args)))) none),
       { sess with sessionStats := { sess.sessionStats with
           calls_replayed := sess.sessionStats.calls_replayed + 1
           replay_misses := sess.sessionStats.replay_misses + 1 } }) := by
  simp only [wrappedCall, hmode, reduceCtorEq, reduceIte]
  rcases hq : mapGet sess.entriesByLookupKeyQueue
      (cn ++ "::" ++ sha256Hex (stableSerialize
        ((opts.buildRequestIdentity.getD (fun a => JVal.arr a)) args)))
    with _ | ⟨_ | ⟨e, rest⟩⟩
  · simp [hq]
  · simp [hq]
  · rw [hq] at hempty
    simp at hempty

theorem wrappedCall_replay_hit (sess : Session) (hmode : sess.mode = .replay)
    (cn : String) (rf : List JVal → Except JSError (Option JVal))
    (opts : WrapOptions) (args : List JVal) (tS tE : Nat)
    (f1 f2 : Option JSError) (E : CassetteEntry) (rest : List JVal)
    (herr : E.error = none)
    (hq : mapGet sess.entriesByLookupKeyQueue
        (cn ++ "::" ++ sha256Hex (stableSerialize
          ((opts.buildRequestIdentity.getD (fun a => JVal.arr a)) args))) =
      some (entryToJVal E :: rest)) :
    wrappedCall sess cn rf opts args tS tE f1 f2 =
      (.ok E.result,
       { sess with
          entriesByLookupKeyQueue := mapSet sess.entriesByLookupKeyQueue
            (cn ++ "::" ++ sha256Hex (stableSerialize
              ((opts.buildRequestIdentity.getD (fun a => JVal.arr a)) args))) rest
          sessionStats := { sess.sessionStats with
            calls_replayed := sess.sessionStats.calls_replayed + 1
            replay_hits := sess.sessionStats.replay_hits + 1
            total_tokens_saved_estimate :=
              sess.sessionStats.total_tokens_saved_estimate +
                getTotalTokensFromMeta E.meta } }) := by
  simp only [wrappedCall, hmode, reduceCtorEq, reduceIte, hq]
  simp only [getField_entry_error, getField_entry_result, getField_entry_meta, herr]
  simp [hmode]

theorem wrappedCall_replay_hit_error (sess : Session) (hmode : sess.mode = .replay)
    (cn : String) (rf : List JVal → Except JSError (Option JVal))
    (opts : WrapOptions) (args : List JVal) (tS tE : Nat)
    (f1 f2 : Option JSError) (E : CassetteEntry) (rest : List JVal)
    (er : CassetteRecordedError) (herr : E.error = some er)
    (hq : mapGet sess.entriesByLookupKeyQueue
        (cn ++ "::" ++ sha256Hex (stableSerialize
          ((opts.buildRequestIdentity.getD (fun a => JVal.arr a)) args))) =
      some (entryToJVal E :: rest)) :
    wrappedCall sess cn rf opts args tS tE f1 f2 =
      (.error (.errorObj er.name er.message er.stack),
       { sess with
          entriesByLookupKeyQueue := mapSet sess.entriesByLookupKeyQueue
            (cn ++ "::" ++ sha256Hex (stableSerialize
              ((opts.buildRequestIdentity.getD (fun a => JVal.arr a)) args))) rest
          sessionStats := { sess.sessionStats with
            calls_replayed := sess.sessionStats.calls_replayed + 1
            replay_hits := sess.sessionStats.replay_hits + 1
            total_tokens_saved_estimate :=
              sess.sessionStats.total_tokens_saved_estimate +
                getTotalTokensFromMeta E.meta } }) := by
  simp only [wrappedCall, hmode, reduceCtorEq, reduceIte, hq]
  simp only [getField_entry_error, herr]
  rcases hstk : er.stack with _ | st <;>
    simp [getField_entry_meta, jsTruthy_errToJVal, getField_err_name,
      getField_err_message, getField_err_stack, hstk, jsToString, hmode]

theorem find?_mapSet_map {α : Type} : ∀ (m : List (String × α)) (k : String) (v : α),
    m.any (fun p => p.1 == k) = true →
    (m.map (fun p => if p.1 == k then (k, v) else p)).find? (fun p => p.1 == k) =
      some (k, v) := by
  intro m k v
  induction m with
  | nil => simp
  | cons p ps ih =>
    intro h
    by_cases hp : (p.1 == k) = true
    · rw [List.map_cons, if_pos hp, List.find?_cons_of_pos _ (by simp)]
    · rw [List.map_cons, if_neg hp, List.find?_cons_of_neg _ (by simpa using hp)]
      apply ih
      simpa [List.any_cons, hp] using h

theorem find?_append_of_any_false {α : Type} :
    ∀ (m l : List (String × α)) (k : String),
    m.any (fun p => p.1 == k) = false →
    (m ++ l).find? (fun p => p.1 == k) = l.find? (fun p => p.1 == k) := by
  intro m l k
  induction m with
  | nil => simp
  | cons p ps ih =>
    intro h
    rw [List.any_cons] at h
    rcases Bool.or_eq_false_iff.mp h with ⟨h1, h2⟩
    rw [List.cons_append, List.find?_cons_of_neg _ (by simpa using h1)]
    exact ih h2

theorem mapGet_mapSet_self {α : Type} (m : List (String × α)) (k : String) (v : α) :
    mapGet (mapSet m k v) k = some v := by
  unfold mapGet mapSet
  by_cases h : m.any (fun p => p.1 == k) = true
  · rw [if_pos h, find?_mapSet_map m k v h]
    rfl
  · rw [if_neg h, find?_append_of_any_false m [(k, v)] k (Bool.eq_false_iff.mpr h),
      List.find?_cons_of_pos _ (by simp)]
    rfl

theorem entryToJVal_ne_null (e : CassetteEntry) : entryToJVal e ≠ .null := by
  simp [entryToJVal]

theorem buildQueuesGo_ok : ∀ (vs : List JVal) (m : List (String × List JVal)),
    (∀ v ∈ vs, v ≠ .null) →
    buildQueuesGo m vs =
      .ok (vs.foldl (fun m2 e =>
        mapSet m2 (loadKeyOf e) ((mapGet m2 (loadKeyOf e)).getD [] ++ [e])) m) := by
  intro vs
  induction vs with
  | nil => intro m h; rfl
  | cons v rest ih =>
    intro m h
    have hrest : ∀ u ∈ rest, u ≠ JVal.null := fun u hu => h u (by simp [hu])
    cases v with
    | null => exact absurd rfl (h _ (by simp))
    | bool b => simpa [buildQueuesGo] using ih _ hrest
    | num n => simpa [buildQueuesGo] using ih _ hrest
    | str s => simpa [buildQueuesGo] using ih _ hrest
    | arr xs => simpa [buildQueuesGo] using ih _ hrest
    | obj fs => simpa [buildQueuesGo] using ih _ hrest

theorem buildQueuesGo_eq_buildQueues (vs : List JVal)
    (h : ∀ v ∈ vs, v ≠ JVal.null) :
    buildQueuesGo [] vs = .ok (buildQueues vs) :=
  buildQueuesGo_ok vs [] h

theorem buildQueuesGo_null : ∀ (pre : List JVal) (m : List (String × List JVal))
    (post : List JVal), (∀ v ∈ pre, v ≠ JVal.null) →
    buildQueuesGo m (pre ++ JVal.null :: post) =
      .error "TypeError: Cannot read properties of null (reading 'call_name')" := by
  intro pre
  induction pre with
  | nil => intro m post h; rfl
  | cons v rest ih =>
    intro m post h
    have hrest : ∀ u ∈ rest, u ≠ JVal.null := fun u hu => h u (by simp [hu])
    cases v with
    | null => exact absurd rfl (h _ (by simp))
    | bool b => simpa [buildQueuesGo] using ih _ post hrest
    | num n => simpa [buildQueuesGo] using ih _ post hrest
    | str s => simpa [buildQueuesGo] using ih _ post hrest
    | arr xs => simpa [buildQueuesGo] using ih _ post hrest
    | obj fs => simpa [buildQueuesGo] using ih _ post hrest

theorem buildQueuesGo_single (E : CassetteEntry) :
    buildQueuesGo [] [entryToJVal E] = .ok (buildQueues [entryToJVal E]) :=
  buildQueuesGo_eq_buildQueues _ (by
    intro v hv
    simp only [List.mem_singleton] at hv
    subst hv
    exact entryToJVal_ne_null _)

theorem buildQueuesGo_pair (E1 E2 : CassetteEntry) :
    buildQueuesGo [] [entryToJVal E1, entryToJVal E2] =
      .ok (buildQueues [entryToJVal E1, entryToJVal E2]) :=
  buildQueuesGo_eq_buildQueues _ (by
    intro v hv
    simp only [List.mem_cons, List.not_mem_nil, or_false] at hv
    rcases hv with rfl | rfl <;> exact entryToJVal_ne_null _)

theorem replay_fifo_drain (sess : Session) (hmode : sess.mode = .replay)
    (cn : String) (idv A B : JVal) (E1 E2 : CassetteEntry)
    (rf1 rf2 rf3 : List JVal → Except JSError (Option JVal))
    (opts1 opts2 opts3 : WrapOptions) (args1 args2 args3 : List JVal)
    (u1 v1 u2 v2 u3 v3 : Nat) (g1 g2 g3 g4 g5 g6 : Option JSError)
    (hE1res : E1.result = some A) (hE1err : E1.error = none)
    (hE2res : E2.result = some B) (hE2err : E2.error = none)
    (hid1 : (opts1.buildRequestIdentity.getD (fun a => JVal.arr a)) args1 = idv)
    (hid2 : (opts2.buildRequestIdentity.getD (fun a => JVal.arr a)) args2 = idv)
    (hid3 : (opts3.buildRequestIdentity.getD (fun a => JVal.arr a)) args3 = idv)
    (hq : mapGet sess.entriesByLookupKeyQueue
        (cn ++ "::" ++ sha256Hex (stableSerialize idv)) =
      some [entryToJVal E1, entryToJVal E2]) :
    (wrappedCall sess cn rf1 opts1 args1 u1 v1 g1 g2).1 = .ok (some A) ∧
    (wrappedCall (wrappedCall sess cn rf1 opts1 args1 u1 v1 g1 g2).2
        cn rf2 opts2 args2 u2 v2 g3 g4).1 = .ok (some B) ∧
    (wrappedCall (wrappedCall (wrappedCall sess cn rf1 opts1 args1 u1 v1 g1 g2).2
          cn rf2 opts2 args2 u2 v2 g3 g4).2
        cn rf3 opts3 args3 u3 v3 g5 g6).1 =
      .error (.errorObj "Error"
        ("Cassette miss: no entry for " ++
          (cn ++ "::" ++ sha256Hex (stableSerialize idv))) none) := by
  have h1 := wrappedCall_replay_hit sess hmode cn rf1 opts1 args1 u1 v1 g1 g2
    E1 [entryToJVal E2] hE1err (by rw [hid1]; exact hq)
  rw [h1]
  set s2 : Session :=
    { sess with
       entriesByLookupKeyQueue := mapSet sess.entriesByLookupKeyQueue
         (cn ++ "::" ++ sha256Hex (stableSerialize
           ((opts1.buildRequestIdentity.getD (fun a => JVal.arr a)) args1)))
         [entryToJVal E2]
       sessionStats := { sess.sessionStats with
         calls_replayed := sess.sessionStats.calls_replayed + 1
         replay_hits := sess.sessionStats.replay_hits + 1
         total_tokens_saved_estimate :=
           sess.sessionStats.total_tokens_saved_estimate +
             getTotalTokensFromMeta E1.meta } } with hs2
  have hmode2 : s2.mode = .replay := by rw [hs2]; exact hmode
  have hq2 : mapGet s2.entriesByLookupKeyQueue
      (cn ++ "::" ++ sha256Hex (stableSerialize idv)) =
      some [entryToJVal E2] := by
    rw [hs2]
    show mapGet (mapSet sess.entriesByLookupKeyQueue _ _) _ = _
    rw [hid1]
    exact mapGet_mapSet_self sess.entriesByLookupKeyQueue _ [entryToJVal E2]
  have h2 := wrappedCall_replay_hit s2 hmode2 cn rf2 opts2 args2 u2 v2 g3 g4
    E2 [] hE2err (by rw [hid2]; exact hq2)
  rw [h2]
  set s3 : Session :=
    { s2 with
       entriesByLookupKeyQueue := mapSet s2.entriesByLookupKeyQueue
         (cn ++ "::" ++ sha256Hex (stableSerialize
           ((opts2.buildRequestIdentity.getD (fun a => JVal.arr a)) args2))) []
       sessionStats := { s2.sessionStats with
         calls_replayed := s2.sessionStats.calls_replayed + 1
         replay_hits := s2.sessionStats.replay_hits + 1
         total_tokens_saved_estimate :=
           s2.sessionStats.total_tokens_saved_estimate +
             getTotalTokensFromMeta E2.meta } } with hs3
  have hmode3 : s3.mode = .replay := by rw [hs3]; exact hmode2
  have hq3 : (mapGet s3.entriesByLookupKeyQueue
      (cn ++ "::" ++ sha256Hex (stableSerialize
        ((opts3.buildRequestIdentity.getD (fun a => JVal.arr a)) args3)))).getD [] =
      [] := by
    rw [hs3, hid3]
    show (mapGet (mapSet s2.entriesByLookupKeyQueue _ _) _).getD [] = []
    rw [hid2]
    rw [mapGet_mapSet_self s2.entriesByLookupKeyQueue _ []]
    rfl
  have h3 := wrappedCall_replay_miss s3 hmode3 cn rf3 opts3 args3 u3 v3 g5 g6 hq3
  rw [h3, hid3, hE1res, hE2res]
  exact ⟨rfl, rfl, rfl⟩

/-! ## Claim theorems -/

/-- C7: In passthrough mode, every invocation of a wrapped operation
executes the real operation directly and returns its outcome, and the
whole session state — queues, cassette file and in particular every field
of the session statistics — is exactly the same after the call as before
it. -/
theorem passthrough_frame (sess : Session) (hmode : sess.mode = .passthrough)
    (cn : String) (rf : List JVal → Except JSError (Option JVal))
    (opts : WrapOptions) (args : List JVal) (tS tE : Nat)
    (f1 f2 : Option JSError) :
    wrappedCall sess cn rf opts args tS tE f1 f2 = (rf args, sess) := by
  simp only [wrappedCall, hmode, reduceCtorEq, reduceIte]

theorem passthrough_frame_witness :
    wrappedCall (freshSession .passthrough) "f"
        (fun _ => .ok (some (.num 7))) {} [JVal.num 1] 3 9 none none =
      (.ok (some (.num 7)), freshSession .passthrough) :=
  passthrough_frame (freshSession .passthrough) rfl "f"
    (fun _ => .ok (some (.num 7))) {} [JVal.num 1] 3 9 none none

/-- C3: In replay mode, a call whose per-key queue is empty (or absent)
increments `calls_replayed` and `replay_misses` and fails with an error
whose message names the call name and the full lookup key; nothing else
in the session changes, and the outcome of a replayed call — miss or hit
— never depends on the real operation, which is never invoked. -/
theorem replay_miss_explicit (sess : Session) (hmode : sess.mode = .replay)
    (cn : String) (rf rf2 : List JVal → Except JSError (Option JVal))
    (opts : WrapOptions) (args : List JVal) (tS tE : Nat)
    (f1 f2 : Option JSError)
    (hempty : (mapGet sess.entriesByLookupKeyQueue
        (cn ++ "::" ++ sha256Hex (stableSerialize
          ((opts.buildRequestIdentity.getD (fun a => JVal.arr a)) args)))).getD [] = []) :
    wrappedCall sess cn rf opts args tS tE f1 f2 =
      (.error (.errorObj "Error"
          ("Cassette miss: no entry for " ++
            (cn ++ "::" ++ sha256Hex (stableSerialize
              ((opts.buildRequestIdentity.getD (fun a => JVal.arr a)) args)))) none),
       { sess with sessionStats := { sess.sessionStats with
           calls_replayed := sess.sessionStats.calls_replayed + 1
           replay_misses := sess.sessionStats.replay_misses + 1 } }) ∧
    wrappedCall sess cn rf opts args tS tE f1 f2 =
      wrappedCall sess cn rf2 opts args tS tE f1 f2 := by
  exact ⟨wrappedCall_replay_miss sess hmode cn rf opts args tS tE f1 f2 hempty,
    wrappedCall_replay_indep sess hmode cn rf rf2 opts args tS tE tS tE f1 f2 f1 f2⟩

theorem replay_miss_explicit_witness :
    (wrappedCall (freshSession .replay) "nope"
        (fun _ => .ok (some (.str "should not run"))) {} [JVal.str "x"]
        0 0 none none).1 =
      .error (.errorObj "Error"
        ("Cassette miss: no entry for " ++
          ("nope" ++ "::" ++ sha256Hex (stableSerialize (JVal.arr [JVal.str "x"])))) none) := by
  have h := replay_miss_explicit (freshSession .replay) rfl "nope"
    (fun _ => .ok (some (.str "should not run")))
    (fun _ => .error (.nonError .null)) {} [JVal.str "x"] 0 0 none none rfl
  rw [h.1]
  rfl

/-- C9: For every session produced by `createCassette` and every sequence
of wrapped-call invocations run on it, the statistics satisfy
`replay_hits + replay_misses = calls_replayed`: every replayed call is
counted exactly once as a hit or a miss, in every mode. -/
theorem replay_counts_partition (o : CreateCassetteOptions) (sess0 : Session)
    (hcreate : createCassette o = .ok sess0) (calls : List CallSpec) :
    (runCalls sess0 calls).sessionStats.replay_hits +
      (runCalls sess0 calls).sessionStats.replay_misses =
      (runCalls sess0 calls).sessionStats.calls_replayed := by
  have hstep : ∀ (cs : List CallSpec) (s : Session),
      s.sessionStats.replay_hits + s.sessionStats.replay_misses =
        s.sessionStats.calls_replayed →
      (runCalls s cs).sessionStats.replay_hits +
        (runCalls s cs).sessionStats.replay_misses =
        (runCalls s cs).sessionStats.calls_replayed := by
    intro cs
    induction cs with
    | nil => intro s h; exact h
    | cons c cs ih =>
      intro s h
      simp only [runCalls]
      exact ih _ (statsInv_step s c h)
  apply hstep
  simp only [createCassette] at hcreate
  rcases hre : readJsonlEntries o.cassetteFile with e | es
  · simp only [hre] at hcreate
    exact absurd hcreate (by simp)
  · simp only [hre] at hcreate
    rcases hbq : buildQueuesGo [] es with e2 | qs
    · simp only [hbq] at hcreate
      exact absurd hcreate (by simp)
    · simp only [hbq] at hcreate
      injection hcreate with h0
      rw [← h0]
      rfl

theorem replay_counts_partition_witness :
    (runCalls (freshSession .record)
        [{ callName := "add"
           realFunction := fun _ => .ok (some (.num 5))
           opts := {}
           args := [JVal.num 2, JVal.num 3]
           tStart := 0
           tEnd := 1
           fsFail1 := none
           fsFail2 := none }]).sessionStats.replay_hits +
      (runCalls (freshSession .record)
        [{ callName := "add"
           realFunction := fun _ => .ok (some (.num 5))
           opts := {}
           args := [JVal.num 2, JVal.num 3]
           tStart := 0
           tEnd := 1
           fsFail1 := none
           fsFail2 := none }]).sessionStats.replay_misses =
      (runCalls (freshSession .record)
        [{ callName := "add"
           realFunction := fun _ => .ok (some (.num 5))
           opts := {}
           args := [JVal.num 2, JVal.num 3]
           tStart := 0
           tEnd := 1
           fsFail1 := none
           fsFail2 := none }]).sessionStats.calls_replayed :=
  replay_counts_partition
    { cassetteFile := none, mode := some .record, redactValue := none }
    (freshSession .record) rfl _

/-- C10: In record mode, when the real operation throws a value that is
not an `Error` object, the persisted error entry records the name
`UnknownError` and, as message, the JavaScript string conversion of the
thrown value, with no stack, and the original non-`Error` value itself is
re-raised unchanged to the caller. -/
theorem record_nonError_entry (sess : Session) (hmode : sess.mode = .record)
    (cn : String) (rf : List JVal → Except JSError (Option JVal))
    (opts : WrapOptions) (args : List JVal) (tS tE : Nat)
    (v : JVal) (hthrow : rf args = .error (.nonError v)) :
    wrappedCall sess cn rf opts args tS tE none none =
      (.error (.nonError v),
       { sess with
          file := sess.file ++ appendEntryLine sess
            { call_name := cn
              request_hash := sha256Hex (stableSerialize
                ((opts.buildRequestIdentity.getD (fun a => JVal.arr a)) args))
              recorded_at_ms := tE
              latency_ms := tE - tS
              args_preview := (opts.buildArgsPreview.getD (fun a => some (JVal.arr a))) args
              result := none
              error := some
                { name := "UnknownError", message := jsToString v, stack := none }
              meta := none }
          sessionStats := { sess.sessionStats with
            calls_recorded := sess.sessionStats.calls_recorded + 1 } }) := by
  rw [wrappedCall_record_eq sess hmode cn rf opts args tS tE none none]
  simp only [hthrow]
  simp [recordCatch, buildErrorObject]

theorem record_nonError_entry_witness :
    wrappedCall (freshSession .record) "fail"
        (fun _ => .error (.nonError (.num 42))) {} [] 0 1 none none =
      (.error (.nonError (.num 42)),
       { freshSession .record with
          file := (freshSession .record).file ++ appendEntryLine (freshSession .record)
            { call_name := "fail"
              request_hash := sha256Hex (stableSerialize
                ((WrapOptions.buildRequestIdentity {} |>.getD (fun a => JVal.arr a)) []))
              recorded_at_ms := 1
              latency_ms := 1 - 0
              args_preview := (WrapOptions.buildArgsPreview {} |>.getD (fun a => some (JVal.arr a))) []
              result := none
              error := some
                { name := "UnknownError", message := jsToString (.num 42), stack := none }
              meta := none }
          sessionStats := { (freshSession .record).sessionStats with
            calls_recorded := (freshSession .record).sessionStats.calls_recorded + 1 } }) :=
  record_nonError_entry (freshSession .record) rfl "fail"
    (fun _ => .error (.nonError (.num 42))) {} [] 0 1 (.num 42) rfl

/-- C8: In record mode, when the first append attempt fails (the
`mkdirSync`/`appendFileSync` of the entry throwing `e`), the recording
call fails: with no second failure the caller receives `e` itself and the
only line appended is the catch block's error entry — the original entry
is not retried — and with a second append failure `e2` the caller
receives `e2` and nothing is appended at all; in neither case is the real
operation's result returned. -/
theorem record_append_failure_propagates (sess : Session)
    (hmode : sess.mode = .record) (cn : String)
    (rf : List JVal → Except JSError (Option JVal)) (opts : WrapOptions)
    (args : List JVal) (tS tE : Nat) (r : Option JVal)
    (hok : rf args = .ok r) (e : JSError) (f2 : Option JSError) :
    (f2 = none →
      wrappedCall sess cn rf opts args tS tE (some e) f2 =
        (.error e,
         { sess with
            file := sess.file ++ appendEntryLine sess
              { call_name := cn
                request_hash := sha256Hex (stableSerialize
                  ((opts.buildRequestIdentity.getD (fun a => JVal.arr a)) args))
                recorded_at_ms := tE
                latency_ms := tE - tS
                args_preview := (opts.buildArgsPreview.getD (fun a => some (JVal.arr a))) args
                result := none
                error := some (buildErrorObject e)
                meta := none }
            sessionStats := { sess.sessionStats with
              calls_recorded := sess.sessionStats.calls_recorded + 1 } })) ∧
    (∀ e2, f2 = some e2 →
      wrappedCall sess cn rf opts args tS tE (some e) f2 = (.error e2, sess)) ∧
    (∀ r2 : Option JVal,
      (wrappedCall sess cn rf opts args tS tE (some e) f2).1 ≠ .ok r2) := by
  have hbase := wrappedCall_record_eq sess hmode cn rf opts args tS tE (some e) f2
  refine ⟨?_, ?_, ?_⟩
  · intro hf2
    rw [hbase]
    simp only [hok, hf2]
    simp [recordCatch]
  · intro e2 hf2
    rw [hbase]
    simp only [hok, hf2]
    simp [recordCatch]
  · intro r2
    rw [hbase]
    simp only [hok]
    rcases f2 with _ | e2 <;> simp [recordCatch]

theorem record_append_failure_propagates_witness :
    (wrappedCall (freshSession .record) "f" (fun _ => .ok (some .null)) {}
        [] 0 1 (some (.errorObj "Error" "EACCES: permission denied" none)) none).1 =
      .error (.errorObj "Error" "EACCES: permission denied" none) := by
  have h := record_append_failure_propagates (freshSession .record) rfl "f"
    (fun _ => .ok (some .null)) {} [] 0 1 (some .null) rfl
    (.errorObj "Error" "EACCES: permission denied" none) none
  rw [h.1 rfl]

/-- C5: For every recording call, the request hash is computed from the
pre-redaction identity payload, the caller receives the unredacted real
result, and the redaction transform (the session's `redactValue`, default
or caller-supplied) is applied to the entry object only at persistence
time, inside the appended line; the hash is a function of the identity
payload alone, and under the default redactor every string leaf of the
persisted entry is the `redactString` image of the corresponding
pre-redaction leaf. -/
theorem record_redacts_only_at_persistence (sess : Session)
    (hmode : sess.mode = .record) (cn : String)
    (rf : List JVal → Except JSError (Option JVal)) (opts : WrapOptions)
    (args : List JVal) (tS tE : Nat) (r : Option JVal)
    (hok : rf args = .ok r) :
    (wrappedCall sess cn rf opts args tS tE none none =
      (.ok r,
       { sess with
          file := sess.file ++
            serV (sess.redactValue (entryToJVal
              { call_name := cn
                request_hash := sha256Hex (stableSerialize
                  ((opts.buildRequestIdentity.getD (fun a => JVal.arr a)) args))
                recorded_at_ms := tE
                latency_ms := tE - tS
                args_preview := (opts.buildArgsPreview.getD (fun a => some (JVal.arr a))) args
                result := r
                error := none
                meta := (opts.buildMeta.getD (fun _ => none)) r })) ++ ['\n']
          sessionStats := { sess.sessionStats with
            calls_recorded := sess.sessionStats.calls_recorded + 1
            total_tokens_recorded := sess.sessionStats.total_tokens_recorded +
              getTotalTokensFromMeta ((opts.buildMeta.getD (fun _ => none)) r) } })) ∧
    (∀ (args2 : List JVal) (opts2 : WrapOptions),
      (opts2.buildRequestIdentity.getD (fun a => JVal.arr a)) args2 =
        (opts.buildRequestIdentity.getD (fun a => JVal.arr a)) args →
      sha256Hex (stableSerialize
          ((opts2.buildRequestIdentity.getD (fun a => JVal.arr a)) args2)) =
        sha256Hex (stableSerialize
          ((opts.buildRequestIdentity.getD (fun a => JVal.arr a)) args))) ∧
    (sess.redactValue = defaultRedactValue →
      ∀ entry : CassetteEntry,
        stringLeaves (sess.redactValue (entryToJVal entry)) =
          (stringLeaves (entryToJVal entry)).map redactString) := by
  refine ⟨?_, ?_, ?_⟩
  · rw [wrappedCall_record_eq sess hmode cn rf opts args tS tE none none]
    simp only [hok]
    simp [appendEntryLine]
  · intro args2 opts2 hid
    rw [hid]
  · intro hred entry
    rw [hred]
    exact stringLeaves_redact _

theorem record_redacts_only_at_persistence_witness :
    (wrappedCall (freshSession .record) "call"
        (fun _ => .ok (some (.str "token sk-secret123 end"))) {}
        [] 0 2 none none).1 =
      .ok (some (.str "token sk-secret123 end")) := by
  have h := record_redacts_only_at_persistence (freshSession .record) rfl "call"
    (fun _ => .ok (some (.str "token sk-secret123 end"))) {} [] 0 2
    (some (.str "token sk-secret123 end")) rfl
  rw [h.1]

/-- C1: From a log holding two entries with the same
`call_name::request_hash` key whose results are `A` then `B` in that
file order, a replay session answers the first call with that key with
`A`, the second with `B`, and fails the third with a cassette-miss
error: per-key queues are drained strictly FIFO in file order. -/
theorem replay_fifo_per_key (cn : String) (idv A B : JVal)
    (E1 E2 : CassetteEntry) (ro : Option (JVal → JVal))
    (rf1 rf2 rf3 : List JVal → Except JSError (Option JVal))
    (opts1 opts2 opts3 : WrapOptions) (args1 args2 args3 : List JVal)
    (u1 v1 u2 v2 u3 v3 : Nat) (g1 g2 g3 g4 g5 g6 : Option JSError)
    (hE1cn : E1.call_name = cn)
    (hE1h : E1.request_hash = sha256Hex (stableSerialize idv))
    (hE1res : E1.result = some A) (hE1err : E1.error = none)
    (hE2cn : E2.call_name = cn)
    (hE2h : E2.request_hash = sha256Hex (stableSerialize idv))
    (hE2res : E2.result = some B) (hE2err : E2.error = none)
    (hid1 : (opts1.buildRequestIdentity.getD (fun a => JVal.arr a)) args1 = idv)
    (hid2 : (opts2.buildRequestIdentity.getD (fun a => JVal.arr a)) args2 = idv)
    (hid3 : (opts3.buildRequestIdentity.getD (fun a => JVal.arr a)) args3 = idv) :
    ∃ s1 : Session,
      createCassette
        { cassetteFile := some (jsonlOf [entryToJVal E1, entryToJVal E2])
          mode := some .replay
          redactValue := ro } = .ok s1 ∧
      ((wrappedCall s1 cn rf1 opts1 args1 u1 v1 g1 g2).1 = .ok (some A) ∧
       (wrappedCall (wrappedCall s1 cn rf1 opts1 args1 u1 v1 g1 g2).2
           cn rf2 opts2 args2 u2 v2 g3 g4).1 = .ok (some B) ∧
       (wrappedCall (wrappedCall (wrappedCall s1 cn rf1 opts1 args1 u1 v1 g1 g2).2
             cn rf2 opts2 args2 u2 v2 g3 g4).2
           cn rf3 opts3 args3 u3 v3 g5 g6).1 =
         .error (.errorObj "Error"
           ("Cassette miss: no entry for " ++
             (cn ++ "::" ++ sha256Hex (stableSerialize idv))) none)) := by
  have hk1 : loadKeyOf (entryToJVal E1) =
      cn ++ "::" ++ sha256Hex (stableSerialize idv) := by
    rw [loadKeyOf_entry, hE1cn, hE1h]
  have hk2 : loadKeyOf (entryToJVal E2) =
      cn ++ "::" ++ sha256Hex (stableSerialize idv) := by
    rw [loadKeyOf_entry, hE2cn, hE2h]
  have hread : readJsonlEntries (some (jsonlOf [entryToJVal E1, entryToJVal E2])) =
      .ok [entryToJVal E1, entryToJVal E2] := by
    simpa using readJsonl_jsonlOf [entryToJVal E1, entryToJVal E2] [] (by simp)
  have hbq : buildQueues [entryToJVal E1, entryToJVal E2] =
      [(cn ++ "::" ++ sha256Hex (stableSerialize idv),
        [entryToJVal E1, entryToJVal E2])] := by
    simp [buildQueues, hk1, hk2, mapSet, mapGet]
  refine ⟨{ mode := .replay
            redactValue := ro.getD defaultRedactValue
            entriesByLookupKeyQueue :=
              [(cn ++ "::" ++ sha256Hex (stableSerialize idv),
                [entryToJVal E1, entryToJVal E2])]
            sessionStats :=
              { mode := .replay
                calls_recorded := 0
                calls_replayed := 0
                replay_hits := 0
                replay_misses := 0
                total_tokens_recorded := 0
                total_tokens_saved_estimate := 0 }
            file := jsonlOf [entryToJVal E1, entryToJVal E2] }, ?_, ?_⟩
  · simp [createCassette, hread, buildQueuesGo_pair, hbq]
  · exact replay_fifo_drain _ rfl cn idv A B E1 E2 rf1 rf2 rf3
      opts1 opts2 opts3 args1 args2 args3 u1 v1 u2 v2 u3 v3 g1 g2 g3 g4 g5 g6
      hE1res hE1err hE2res hE2err hid1 hid2 hid3 (by simp [mapGet])

theorem replay_fifo_per_key_witness :
    ∃ s1 : Session,
      createCassette
        { cassetteFile := some (jsonlOf
            [entryToJVal
              { call_name := "add"
                request_hash := sha256Hex (stableSerialize (.arr [.num 2, .num 3]))
                recorded_at_ms := 10
                latency_ms := 1
                args_preview := some (.arr [.num 2, .num 3])
                result := some (.num 5)
                error := none
                meta := none },
             entryToJVal
              { call_name := "add"
                request_hash := sha256Hex (stableSerialize (.arr [.num 2, .num 3]))
                recorded_at_ms := 20
                latency_ms := 2
                args_preview := some (.arr [.num 2, .num 3])
                result := some (.num 7)
                error := none
                meta := none }])
          mode := some .replay
          redactValue := none } = .ok s1 ∧
      ((wrappedCall s1 "add"
          (fun _ => .error (.errorObj "Error" "This should never run in replay mode" none))
          {} [.num 2, .num 3] 0 0 none none).1 = .ok (some (.num 5)) ∧
       (wrappedCall (wrappedCall s1 "add"
              (fun _ => .error (.errorObj "Error" "This should never run in replay mode" none))
              {} [.num 2, .num 3] 0 0 none none).2
           "add"
           (fun _ => .error (.errorObj "Error" "This should never run in replay mode" none))
           {} [.num 2, .num 3] 0 0 none none).1 = .ok (some (.num 7)) ∧
       (wrappedCall (wrappedCall (wrappedCall s1 "add"
              (fun _ => .error (.errorObj "Error" "This should never run in replay mode" none))
              {} [.num 2, .num 3] 0 0 none none).2
             "add"
             (fun _ => .error (.errorObj "Error" "This should never run in replay mode" none))
             {} [.num 2, .num 3] 0 0 none none).2
           "add"
           (fun _ => .error (.errorObj "Error" "This should never run in replay mode" none))
           {} [.num 2, .num 3] 0 0 none none).1 =
         .error (.errorObj "Error"
           ("Cassette miss: no entry for " ++
             ("add" ++ "::" ++ sha256Hex (stableSerialize (.arr [.num 2, .num 3])))) none)) :=
  replay_fifo_per_key "add" (.arr [.num 2, .num 3]) (.num 5) (.num 7)
    { call_name := "add"
      request_hash := sha256Hex (stableSerialize (.arr [.num 2, .num 3]))
      recorded_at_ms := 10
      latency_ms := 1
      args_preview := some (.arr [.num 2, .num 3])
      result := some (.num 5)
      error := none
      meta := none }
    { call_name := "add"
      request_hash := sha256Hex (stableSerialize (.arr [.num 2, .num 3]))
      recorded_at_ms := 20
      latency_ms := 2
      args_preview := some (.arr [.num 2, .num 3])
      result := some (.num 7)
      error := none
      meta := none }
    none
    (fun _ => .error (.errorObj "Error" "This should never run in replay mode" none))
    (fun _ => .error (.errorObj "Error" "This should never run in replay mode" none))
    (fun _ => .error (.errorObj "Error" "This should never run in replay mode" none))
    {} {} {} [.num 2, .num 3] [.num 2, .num 3] [.num 2, .num 3]
    0 0 0 0 0 0 none none none none none none
    rfl rfl rfl rfl rfl rfl rfl rfl rfl rfl rfl

theorem record_error_replay_redacted_aux
    (cn n m : String) (stk : Option String) (idv : JVal)
    (rf rf2 : List JVal → Except JSError (Option JVal))
    (opts opts2 : WrapOptions) (args args2 : List JVal)
    (tS tE u2 v2 : Nat) (g1 g2 : Option JSError)
    (hthrow : rf args = .error (.errorObj n m stk))
    (hid : (opts.buildRequestIdentity.getD (fun a => JVal.arr a)) args = idv)
    (hid2 : (opts2.buildRequestIdentity.getD (fun a => JVal.arr a)) args2 = idv)
    (hcn : redactString cn = cn)
    (hh : redactString (sha256Hex (stableSerialize idv)) =
      sha256Hex (stableSerialize idv)) :
    (wrappedCall (freshSession .record) cn rf opts args tS tE none none).1 =
      .error (.errorObj n m stk) ∧
    ((wrappedCall (freshSession .record) cn rf opts args
        tS tE none none).2).sessionStats.calls_recorded = 1 ∧
    ∃ s1 : Session,
      createCassette
        { cassetteFile :=
            some ((wrappedCall (freshSession .record) cn rf opts args
              tS tE none none).2).file
          mode := some .replay
          redactValue := none } = .ok s1 ∧
      wrappedCall s1 cn rf2 opts2 args2 u2 v2 g1 g2 =
        wrappedCall s1 cn rf opts2 args2 u2 v2 g1 g2 ∧
      (wrappedCall s1 cn rf2 opts2 args2 u2 v2 g1 g2).1 =
        .error (.errorObj (redactString n) (redactString m)
          (stk.map redactString)) := by
  have hrec : wrappedCall (freshSession .record) cn rf opts args tS tE none none =
      (.error (.errorObj n m stk),
       { mode := .record
         redactValue := defaultRedactValue
         entriesByLookupKeyQueue := []
         sessionStats :=
           { mode := .record, calls_recorded := 1, calls_replayed := 0,
             replay_hits := 0, replay_misses := 0, total_tokens_recorded := 0,
             total_tokens_saved_estimate := 0 }
         file := appendEntryLine (freshSession .record)
           { call_name := cn
             request_hash := sha256Hex (stableSerialize idv)
             recorded_at_ms := tE
             latency_ms := tE - tS
             args_preview := (opts.buildArgsPreview.getD (fun a => some (JVal.arr a))) args
             result := none
             error := some { name := n, message := m, stack := stk }
             meta := none } }) := by
    rw [wrappedCall_record_eq (freshSession .record) rfl cn rf opts args tS tE none none]
    simp only [hthrow, hid]
    simp [recordCatch, buildErrorObject, freshSession]
  have hfile : appendEntryLine (freshSession .record)
      { call_name := cn
        request_hash := sha256Hex (stableSerialize idv)
        recorded_at_ms := tE
        latency_ms := tE - tS
        args_preview := (opts.buildArgsPreview.getD (fun a => some (JVal.arr a))) args
        result := none
        error := some { name := n, message := m, stack := stk }
        meta := none } =
      jsonlOf [entryToJVal
        { call_name := cn
          request_hash := sha256Hex (stableSerialize idv)
          recorded_at_ms := tE
          latency_ms := tE - tS
          args_preview :=
            ((opts.buildArgsPreview.getD (fun a => some (JVal.arr a))) args).map
              defaultRedactValue
          result := none
          error := some { name := redactString n, message := redactString m, stack := stk.map redactString }
          meta := none }] := by
    show serV ((freshSession CassetteMode.record).redactValue (entryToJVal _)) ++ ['\n'] = _
    rw [show (freshSession CassetteMode.record).redactValue = defaultRedactValue from rfl,
      redact_entryToJVal]
    simp [jsonlOf, redactEntry, hcn, hh]
  refine ⟨by rw [hrec], by rw [hrec], ?_⟩
  have hread : readJsonlEntries (some (jsonlOf [entryToJVal
      { call_name := cn
        request_hash := sha256Hex (stableSerialize idv)
        recorded_at_ms := tE
        latency_ms := tE - tS
        args_preview :=
          ((opts.buildArgsPreview.getD (fun a => some (JVal.arr a))) args).map
            defaultRedactValue
        result := none
        error := some { name := redactString n, message := redactString m, stack := stk.map redactString }
        meta := none }])) =
      .ok [entryToJVal
      { call_name := cn
        request_hash := sha256Hex (stableSerialize idv)
        recorded_at_ms := tE
        latency_ms := tE - tS
        args_preview :=
          ((opts.buildArgsPreview.getD (fun a => some (JVal.arr a))) args).map
            defaultRedactValue
        result := none
        error := some { name := redactString n, message := redactString m, stack := stk.map redactString }
        meta := none }] := by
    simpa using readJsonl_jsonlOf [entryToJVal
      { call_name := cn
        request_hash := sha256Hex (stableSerialize idv)
        recorded_at_ms := tE
        latency_ms := tE - tS
        args_preview :=
          ((opts.buildArgsPreview.getD (fun a => some (JVal.arr a))) args).map
            defaultRedactValue
        result := none
        error := some { name := redactString n, message := redactString m, stack := stk.map redactString }
        meta := none }] [] (by simp)
  refine ⟨{ mode := .replay
            redactValue := defaultRedactValue
            entriesByLookupKeyQueue :=
              [(cn ++ "::" ++ sha256Hex (stableSerialize idv),
                [entryToJVal
                  { call_name := cn
                    request_hash := sha256Hex (stableSerialize idv)
                    recorded_at_ms := tE
                    latency_ms := tE - tS
                    args_preview :=
                      ((opts.buildArgsPreview.getD (fun a => some (JVal.arr a))) args).map
                        defaultRedactValue
                    result := none
                    error := some { name := redactString n, message := redactString m, stack := stk.map redactString }
                    meta := none }])]
            sessionStats :=
              { mode := .replay, calls_recorded := 0, calls_replayed := 0,
                replay_hits := 0, replay_misses := 0, total_tokens_recorded := 0,
                total_tokens_saved_estimate := 0 }
            file := jsonlOf [entryToJVal
              { call_name := cn
                request_hash := sha256Hex (stableSerialize idv)
                recorded_at_ms := tE
                latency_ms := tE - tS
                args_preview :=
                  ((opts.buildArgsPreview.getD (fun a => some (JVal.arr a))) args).map
                    defaultRedactValue
                result := none
                error := some { name := redactString n, message := redactString m, stack := stk.map redactString }
                meta := none }] }, ?_, ?_, ?_⟩
  · rw [hrec]
    show createCassette
        { cassetteFile := some (appendEntryLine (freshSession .record)
            { call_name := cn
              request_hash := sha256Hex (stableSerialize idv)
              recorded_at_ms := tE
              latency_ms := tE - tS
              args_preview := (opts.buildArgsPreview.getD (fun a => some (JVal.arr a))) args
              result := none
              error := some { name := n, message := m, stack := stk }
              meta := none })
          mode := some .replay
          redactValue := none } = .ok _
    rw [hfile]
    simp [createCassette, hread, buildQueuesGo_single, buildQueues,
      loadKeyOf_entry, mapSet, mapGet]
  · exact wrappedCall_replay_indep _ rfl cn rf2 rf opts2 args2 u2 v2 u2 v2 g1 g2 g1 g2
  · rw [wrappedCall_replay_hit_error _ rfl cn rf2 opts2 args2 u2 v2 g1 g2
      { call_name := cn
        request_hash := sha256Hex (stableSerialize idv)
        recorded_at_ms := tE
        latency_ms := tE - tS
        args_preview :=
          ((opts.buildArgsPreview.getD (fun a => some (JVal.arr a))) args).map
            defaultRedactValue
        result := none
        error := some { name := redactString n, message := redactString m, stack := stk.map redactString }
        meta := none } []
      { name := redactString n, message := redactString m, stack := stk.map redactString }
      rfl (by rw [hid2]; simp [mapGet])]


/-- C2 is false as stated: recording a thrown failure whose message
contains an API-key-shaped substring persists the default-redacted
message, so the later replay raises a failure whose message differs from
the original. Recording a throw with message `sk-abc boom` and replaying
yields message `sk-[REDACTED] boom`. -/
theorem record_error_roundtrip_counterexample :
    (wrappedCall (freshSession .record) "fail"
        (fun _ => .error (.errorObj "Error" "sk-abc boom" none)) {}
        [] 0 0 none none).1 =
      .error (.errorObj "Error" "sk-abc boom" none) ∧
    (∃ s1 : Session,
      createCassette
        { cassetteFile := some ((wrappedCall (freshSession .record) "fail"
            (fun _ => .error (.errorObj "Error" "sk-abc boom" none)) {}
            [] 0 0 none none).2).file
          mode := some .replay
          redactValue := none } = .ok s1 ∧
      (wrappedCall s1 "fail" (fun _ => .ok none) {} [] 0 0 none none).1 =
        .error (.errorObj "Error" "sk-[REDACTED] boom" none)) ∧
    "sk-[REDACTED] boom" ≠ "sk-abc boom" := by
  obtain ⟨h1, h2, s1, hc, hind, hout⟩ :=
    record_error_replay_redacted_aux "fail" "Error" "sk-abc boom" none (.arr [])
      (fun _ => .error (.errorObj "Error" "sk-abc boom" none)) (fun _ => .ok none)
      {} {} [] [] 0 0 0 0 none none rfl rfl rfl (by rfl) (by rfl)
  refine ⟨h1, ⟨s1, hc, ?_⟩, by decide⟩
  rw [hout]
  rfl

/-- C2 (amended): In record mode, a thrown `Error` is re-raised unchanged
to the caller and `calls_recorded` increments; the persisted error entry
carries the failure's name and message as transformed by the redaction of
the persisted entry object, and replaying that entry — without invoking
the real operation — raises a failure whose name, message and stack are
exactly those persisted (default-redacted) forms, which coincide with the
original's exactly when redaction leaves them unchanged.  (The call name
and request hash are assumed fixed by redaction, as hex digests always
are.) -/
theorem record_error_replay_redacted
    (cn n m : String) (stk : Option String) (idv : JVal)
    (rf rf2 : List JVal → Except JSError (Option JVal))
    (opts opts2 : WrapOptions) (args args2 : List JVal)
    (tS tE u2 v2 : Nat) (g1 g2 : Option JSError)
    (hthrow : rf args = .error (.errorObj n m stk))
    (hid : (opts.buildRequestIdentity.getD (fun a => JVal.arr a)) args = idv)
    (hid2 : (opts2.buildRequestIdentity.getD (fun a => JVal.arr a)) args2 = idv)
    (hcn : redactString cn = cn)
    (hh : redactString (sha256Hex (stableSerialize idv)) =
      sha256Hex (stableSerialize idv)) :
    (wrappedCall (freshSession .record) cn rf opts args tS tE none none).1 =
      .error (.errorObj n m stk) ∧
    ((wrappedCall (freshSession .record) cn rf opts args
        tS tE none none).2).sessionStats.calls_recorded = 1 ∧
    ∃ s1 : Session,
      createCassette
        { cassetteFile :=
            some ((wrappedCall (freshSession .record) cn rf opts args
              tS tE none none).2).file
          mode := some .replay
          redactValue := none } = .ok s1 ∧
      wrappedCall s1 cn rf2 opts2 args2 u2 v2 g1 g2 =
        wrappedCall s1 cn rf opts2 args2 u2 v2 g1 g2 ∧
      (wrappedCall s1 cn rf2 opts2 args2 u2 v2 g1 g2).1 =
        .error (.errorObj (redactString n) (redactString m)
          (stk.map redactString)) :=
  record_error_replay_redacted_aux cn n m stk idv rf rf2 opts opts2 args args2
    tS tE u2 v2 g1 g2 hthrow hid hid2 hcn hh

theorem record_error_replay_redacted_witness :
    (wrappedCall (freshSession .record) "fail"
        (fun _ => .error (.errorObj "Error" "boom" none)) {} [] 0 0 none none).1 =
      .error (.errorObj "Error" "boom" none) ∧
    ((wrappedCall (freshSession .record) "fail"
        (fun _ => .error (.errorObj "Error" "boom" none)) {}
        [] 0 0 none none).2).sessionStats.calls_recorded = 1 ∧
    ∃ s1 : Session,
      createCassette
        { cassetteFile :=
            some ((wrappedCall (freshSession .record) "fail"
              (fun _ => .error (.errorObj "Error" "boom" none)) {}
              [] 0 0 none none).2).file
          mode := some .replay
          redactValue := none } = .ok s1 ∧
      wrappedCall s1 "fail" (fun _ => .ok none) {} [] 1 1 none none =
        wrappedCall s1 "fail" (fun _ => .error (.errorObj "Error" "boom" none))
          {} [] 1 1 none none ∧
      (wrappedCall s1 "fail" (fun _ => .ok none) {} [] 1 1 none none).1 =
        .error (.errorObj (redactString "Error") (redactString "boom")
          (Option.map redactString none)) :=
  record_error_replay_redacted "fail" "Error" "boom" none (.arr [])
    (fun _ => .error (.errorObj "Error" "boom" none)) (fun _ => .ok none)
    {} {} [] [] 0 0 1 1 none none rfl rfl rfl rfl rfl

set_option maxRecDepth 100000 in
/-- C6 is false as stated: a nonempty truncated trailing line (a crash
mid-write) is parsed by `JSON.parse` like every other nonempty line, so
the whole load fails and the preceding committed entries are lost to the
session.  A file holding one committed record followed by the truncated
line `\x7b"call` loads as a `SyntaxError`, and `createCassette` on it
fails. -/
theorem loader_truncated_line_counterexample :
    readJsonlEntries (some (jsonlOf [JVal.obj [("a", JVal.num 1)]] ++
        ['\x7b', '"', 'c', 'a', 'l', 'l'])) =
      .error "SyntaxError: unexpected token in JSON" ∧
    (∀ vs : List JVal,
      readJsonlEntries (some (jsonlOf [JVal.obj [("a", JVal.num 1)]] ++
        ['\x7b', '"', 'c', 'a', 'l', 'l'])) ≠ .ok vs) ∧
    createCassette
      { cassetteFile := some (jsonlOf [JVal.obj [("a", JVal.num 1)]] ++
          ['\x7b', '"', 'c', 'a', 'l', 'l'])
        mode := some .replay
        redactValue := none } =
      .error "SyntaxError: unexpected token in JSON" := by
  have h : readJsonlEntries (some (jsonlOf [JVal.obj [("a", JVal.num 1)]] ++
      ['\x7b', '"', 'c', 'a', 'l', 'l'])) =
      .error "SyntaxError: unexpected token in JSON" := by with_unfolding_all rfl
  refine ⟨h, fun vs hv => ?_, ?_⟩
  · rw [h] at hv
    exact Except.noConfusion hv
  · simp [createCassette, h]

/-- C6 (amended): for committed records none of which is the bare JSON
`null`, the loader tolerates a trailing empty line and, more generally,
any trailing whitespace-only text after the committed records (each line
is trimmed and empty lines are filtered before parsing): the load
succeeds, returns exactly the committed records, and session creation
builds the queues from all of them.  A nonempty truncated trailing line,
by contrast, fails the load (see the counterexample), and a committed
`null` record makes the key computation of session creation throw a
`TypeError`. -/
theorem loader_trailing_blank (vs : List JVal) (ws : List Char)
    (hws : ∀ c ∈ ws, isJsWs c = true)
    (hnn : ∀ v ∈ vs, v ≠ JVal.null) :
    (readJsonlEntries (some (jsonlOf vs ++ ws)) = .ok vs ∧
     ∃ s1 : Session,
       createCassette
         { cassetteFile := some (jsonlOf vs ++ ws)
           mode := some .replay
           redactValue := none } = .ok s1 ∧
       s1.entriesByLookupKeyQueue = buildQueues vs) ∧
    (∀ (pre post : List JVal) (ws2 : List Char),
      (∀ v ∈ pre, v ≠ JVal.null) → (∀ c ∈ ws2, isJsWs c = true) →
      createCassette
        { cassetteFile := some (jsonlOf (pre ++ JVal.null :: post) ++ ws2)
          mode := some .replay
          redactValue := none } =
        .error "TypeError: Cannot read properties of null (reading 'call_name')") := by
  have h := readJsonl_jsonlOf vs ws hws
  have hbq := buildQueuesGo_eq_buildQueues vs hnn
  refine ⟨⟨h,
    ⟨{ mode := .replay
       redactValue := defaultRedactValue
       entriesByLookupKeyQueue := buildQueues vs
       sessionStats :=
         { mode := .replay, calls_recorded := 0, calls_replayed := 0,
           replay_hits := 0, replay_misses := 0,
           total_tokens_recorded := 0, total_tokens_saved_estimate := 0 }
       file := jsonlOf vs ++ ws }, ?_, rfl⟩⟩, ?_⟩
  · simp [createCassette, h, hbq]
  · intro pre post ws2 hpre hws2
    have h2 := readJsonl_jsonlOf (pre ++ JVal.null :: post) ws2 hws2
    simp [createCassette, h2, buildQueuesGo_null pre [] post hpre]

theorem loader_trailing_blank_witness :
    (readJsonlEntries (some (jsonlOf [JVal.obj [("a", JVal.num 1)]] ++ [' ', '\n'])) =
       .ok [JVal.obj [("a", JVal.num 1)]] ∧
     ∃ s1 : Session,
       createCassette
         { cassetteFile := some (jsonlOf [JVal.obj [("a", JVal.num 1)]] ++ [' ', '\n'])
           mode := some .replay
           redactValue := none } = .ok s1 ∧
       s1.entriesByLookupKeyQueue = buildQueues [JVal.obj [("a", JVal.num 1)]]) ∧
    (∀ (pre post : List JVal) (ws2 : List Char),
      (∀ v ∈ pre, v ≠ JVal.null) → (∀ c ∈ ws2, isJsWs c = true) →
      createCassette
        { cassetteFile := some (jsonlOf (pre ++ JVal.null :: post) ++ ws2)
          mode := some .replay
          redactValue := none } =
        .error "TypeError: Cannot read properties of null (reading 'call_name')") :=
  loader_trailing_blank [JVal.obj [("a", JVal.num 1)]] [' ', '\n'] (by decide)
    (by intro v hv; simp only [List.mem_singleton] at hv; subst hv; simp)

/-- C4 is false as stated for the array-order half: swapping two array
elements that carry the same data with different key insertion orders
changes the element order of the array but leaves the canonical
serialization — and hence the digest — unchanged. -/
theorem stable_hash_counterexample :
    wfB (JVal.arr [.obj [("a", .num 1), ("b", .num 2)],
        .obj [("b", .num 2), ("a", .num 1)]]) = true ∧
    wfB (JVal.arr [.obj [("b", .num 2), ("a", .num 1)],
        .obj [("a", .num 1), ("b", .num 2)]]) = true ∧
    ArrPerm
      (JVal.arr [.obj [("a", .num 1), ("b", .num 2)],
        .obj [("b", .num 2), ("a", .num 1)]])
      (JVal.arr [.obj [("b", .num 2), ("a", .num 1)],
        .obj [("a", .num 1), ("b", .num 2)]]) ∧
    JVal.arr [.obj [("a", .num 1), ("b", .num 2)],
        .obj [("b", .num 2), ("a", .num 1)]] ≠
      JVal.arr [.obj [("b", .num 2), ("a", .num 1)],
        .obj [("a", .num 1), ("b", .num 2)]] ∧
    stableSerialize (JVal.arr [.obj [("a", .num 1), ("b", .num 2)],
        .obj [("b", .num 2), ("a", .num 1)]]) =
      stableSerialize (JVal.arr [.obj [("b", .num 2), ("a", .num 1)],
        .obj [("a", .num 1), ("b", .num 2)]]) ∧
    sha256Hex (stableSerialize (JVal.arr [.obj [("a", .num 1), ("b", .num 2)],
        .obj [("b", .num 2), ("a", .num 1)]])) =
      sha256Hex (stableSerialize (JVal.arr [.obj [("b", .num 2), ("a", .num 1)],
        .obj [("a", .num 1), ("b", .num 2)]])) := by
  refine ⟨by rfl, by rfl, ?_, ne_of_beqV_eq_false (by rfl), by rfl, by rfl⟩
  rw [arrPerm_arr_iff]
  exact ⟨[.obj [("a", .num 1), ("b", .num 2)], .obj [("b", .num 2), ("a", .num 1)]],
    List.Perm.swap _ _ [],
    List.Forall₂.cons (arrPerm_refl _) (List.Forall₂.cons (arrPerm_refl _) List.Forall₂.nil)⟩

/-- C4 (amended): two well-formed values carrying the same data with
object keys inserted in any orders canonicalize to identical strings and
digests; two values differing in the order of elements of some array
yield different strings and digests provided the reordering is visible in
the data — i.e. they do not carry the same data, as they do when the
swapped elements are semantically equal (see the counterexample). -/
theorem stable_hash_amended (v w : JVal) (hv : wfB v = true) (hw : wfB w = true) :
    (SameData v w →
      stableSerialize v = stableSerialize w ∧
      sha256Hex (stableSerialize v) = sha256Hex (stableSerialize w)) ∧
    (ArrPerm v w → ¬ SameData v w →
      stableSerialize v ≠ stableSerialize w ∧
      sha256Hex (stableSerialize v) ≠ sha256Hex (stableSerialize w)) := by
  constructor
  · intro h
    have he := (stableSerialize_eq_iff_sameData hv hw).mpr h
    exact ⟨he, by rw [he]⟩
  · intro hap hnsd
    have h1 : stableSerialize v ≠ stableSerialize w := fun he =>
      hnsd ((stableSerialize_eq_iff_sameData hv hw).mp he)
    exact ⟨h1, fun he => h1 he⟩

theorem stable_hash_amended_witness :
    (SameData (JVal.obj [("b", .num 2), ("a", .num 1)])
        (JVal.obj [("a", .num 1), ("b", .num 2)]) →
      stableSerialize (JVal.obj [("b", .num 2), ("a", .num 1)]) =
        stableSerialize (JVal.obj [("a", .num 1), ("b", .num 2)]) ∧
      sha256Hex (stableSerialize (JVal.obj [("b", .num 2), ("a", .num 1)])) =
        sha256Hex (stableSerialize (JVal.obj [("a", .num 1), ("b", .num 2)]))) ∧
    (ArrPerm (JVal.obj [("b", .num 2), ("a", .num 1)])
        (JVal.obj [("a", .num 1), ("b", .num 2)]) →
      ¬ SameData (JVal.obj [("b", .num 2), ("a", .num 1)])
        (JVal.obj [("a", .num 1), ("b", .num 2)]) →
      stableSerialize (JVal.obj [("b", .num 2), ("a", .num 1)]) ≠
        stableSerialize (JVal.obj [("a", .num 1), ("b", .num 2)]) ∧
      sha256Hex (stableSerialize (JVal.obj [("b", .num 2), ("a", .num 1)])) ≠
        sha256Hex (stableSerialize (JVal.obj [("a", .num 1), ("b", .num 2)]))) :=
  stable_hash_amended (JVal.obj [("b", .num 2), ("a", .num 1)])
    (JVal.obj [("a", .num 1), ("b", .num 2)]) (by rfl) (by rfl)

end Cassette
